import Mathlib

/-!
Verification of the MCP bridge server (the WebSocket-to-subprocess gateway found
in the repository in two revisions: the size-limited revision embedded at the end
of the dashboard sources, and the original revision in mcp-bridge/server.js).

The bridge relays newline-delimited JSON-RPC between one client connection and
one spawned child process per session, enforcing a per-request timeout, a
per-frame and a cumulative size limit, and lifecycle cleanup.  We shallowly
embed the handler bodies as pure state-transition functions (the event loop is
single-threaded, so each handler runs atomically) and prove properties of the
resulting transition system.

Characters and strings are modelled as `List Char`; JSON serialisation and
parsing (the calls to JSON.parse / JSON.stringify of the Node runtime) are
modelled by carrying the serialised form and by a parse oracle passed to the
stdout handler.
-/

namespace McpBridge

/-- JSON-RPC ids are numbers, strings or null (assigned by the client, opaque to
the bridge). -/
inductive JsonId where
  | num (n : Int)
  | str (s : List Char)
  | null
  deriving DecidableEq

/-- JavaScript truthiness of an id value: 0, the empty string and null are
falsy. -/
def JsonId.truthy : JsonId → Bool
  | .num n => n ≠ 0
  | .str s => s ≠ []
  | .null => false

/-- Truthiness of a possibly-absent id field (absent, i.e. undefined, is
falsy). -/
def idTruthy : Option JsonId → Bool
  | some i => i.truthy
  | none => false

/-- Truthiness of a possibly-absent method field (absent or empty string is
falsy). -/
def methTruthy : Option (List Char) → Bool
  | some m => m ≠ []
  | none => false

/-- Whitespace test used by the String.trim calls of the handlers. -/
def isWs (c : Char) : Bool := c = ' ' || c = '\n' || c = '\t' || c = '\r'

/-- JavaScript String.trim: drop whitespace from both ends. -/
def trim (l : List Char) : List Char :=
  (((l.dropWhile isWs).reverse).dropWhile isWs).reverse

/-- Decimal digits of a natural number, for the interpolated log / error
messages. -/
def natChars (n : Nat) : List Char := (Nat.repr n).toList

/-- Decimal rendering of an integer (used for exit codes in messages). -/
def intChars : Int → List Char
  | .ofNat n => natChars n
  | .negSucc n => '-' :: natChars (n + 1)

/-- Substring occurrence test (`pat` occurs contiguously in the other list),
used to state facts about the synthesized error messages. -/
def isPre : List Char → List Char → Bool
  | [], _ => true
  | _ :: _, [] => false
  | a :: as, b :: bs => a = b && isPre as bs

/-- Containment of a pattern anywhere in a character list. -/
def containsSub (pat : List Char) : List Char → Bool
  | [] => isPre pat []
  | c :: rest => isPre pat (c :: rest) || containsSub pat rest

/-! ## The Framer

The stdout handler of the size-limited bridge keeps a carry-over buffer:

  currentLineBuffer += dataStr;
  const lines = currentLineBuffer.split('\n');
  currentLineBuffer = lines.pop() || '';

`splitNl` is String.split('\n'), `emitParts` separates the popped last element
from the emitted ones, and `framerStep` is one data event of the framing layer.
-/

/-- JavaScript String.split('\n'): always returns at least one part. -/
def splitNl : List Char → List (List Char)
  | [] => [[]]
  | c :: rest =>
    if c = '\n' then [] :: splitNl rest else
      match splitNl rest with
      | [] => [[c]]
      | s :: ss => (c :: s) :: ss

/-- Split a parts list into (all but the last, the last); the last part becomes
the new carry-over buffer (lines.pop). -/
def emitParts : List (List Char) → List (List Char) × List Char
  | [] => ([], [])
  | [l] => ([], l)
  | l :: rest =>
    let p := emitParts (rest)
    (l :: p.1, p.2)

/-- One framer data event: append the chunk to the buffer, split on newline,
emit every part except the last, which is the new buffer. -/
def framerStep (buf chunk : List Char) : List (List Char) × List Char :=
  emitParts (splitNl (buf ++ chunk))

/-- Feed a sequence of chunks through the framer, collecting all emitted lines
and the final carry-over buffer. -/
def feed (buf : List Char) : List (List Char) → List (List Char) × List Char
  | [] => ([], buf)
  | c :: cs =>
    let p := framerStep buf c
    let q := feed p.2 cs
    (p.1 ++ q.1, q.2)

/-! ## The size-limited bridge session

Constants and handler bodies below are translated from the size-limited bridge
revision (the one announcing itself as "Size-Limited MCP Bridge Server").  One
WebSocket connection owns: a nullable child-process handle (a closure variable
`mcpProcess` plus a copy in the `activeConnections` registry entry that the
exit handler nulls out), a pending-request map, a carry-over line buffer, a
cumulative byte counter, and armed timers.  Node's `subprocess.kill` sets the
handle's `killed` flag as soon as a signal is successfully sent; the flag does
not mean the process has exited.  Each handler runs atomically on the single
event-loop thread, so it is a pure function from state (plus input) to state,
a list of observable outputs, and a ghost list recording every pending entry
the handler removed (its resolution).
-/

def REQUEST_TIMEOUT : Nat := 10000

def MAX_RESPONSE_SIZE : Nat := 50000

/-- Result of JSON.parse on a stdout line, as far as the handlers inspect it:
the id field (absent or a JSON id value) and truthiness of the result field. -/
structure Parsed where
  id : Option JsonId
  hasResult : Bool
  deriving DecidableEq

/-- A non-connect client message, as far as the handlers inspect it: the id and
method fields and the JSON.stringify serialisation. -/
structure RpcMsg where
  id : Option JsonId
  method : Option (List Char)
  ser : List Char
  deriving DecidableEq

/-- A pending-request map entry: originating method and the timeout handle. -/
structure ReqInfo where
  method : List Char
  tid : Nat
  deriving DecidableEq

/-- What an armed timer does when it fires. -/
inductive TKind where
  | reqTimeout (id : JsonId) (method : List Char)
  | graceKill
  | initCheck
  deriving DecidableEq

/-- An armed timer: its setTimeout handle, delay in milliseconds, callback. -/
structure Timer where
  tid : Nat
  delay : Nat
  kind : TKind
  deriving DecidableEq

/-- Observable outputs of a handler invocation. -/
inductive Out where
  | sendErr (id : JsonId) (code : Int) (msg : List Char)
  | sendLine (l : List Char)
  | sendExitReport (code : Int) (stdoutText stderrText : List Char)
  | stdinWrite (l : List Char)
  | killSig (sig : List Char)
  deriving DecidableEq

/-- How a pending entry was resolved (ghost instrumentation: one record is
emitted exactly where a handler removes an existing pending entry). -/
inductive RKind where
  | response
  | frameSize
  | timeout
  | breach
  | procGone
  | connClosed
  | shutdown
  deriving DecidableEq

/-- Synthesized timeout error text (hardcoded in the source; note it names 15
seconds while REQUEST_TIMEOUT is 10000 ms). -/
def timeoutMsg : List Char :=
  "Request timeout after 15 seconds. Server should implement faster response handling.".toList

/-- Cumulative size-breach error text, with Math.round(total/1024) rendered. -/
def breachMsg (total : Nat) : List Char :=
  "Response too large (".toList ++ natChars ((total + 512) / 1024) ++
    "KB). Server should implement size limiting.".toList

/-- Individual oversized-frame error text. -/
def frameMsg (len : Nat) : List Char :=
  "Response too large (".toList ++ natChars ((len + 512) / 1024) ++
    "KB). Content truncated for performance.".toList

/-- Oversized outbound request error text. -/
def reqTooLargeMsg (len : Nat) : List Char :=
  "Request too large (".toList ++ natChars ((len + 512) / 1024) ++
    "KB). Please reduce request size.".toList

def notAvailMsg : List Char := "MCP process not available".toList

def exitMsg (code : Int) : List Char :=
  "MCP process exited unexpectedly (code: ".toList ++ intChars code ++ ")".toList

def sigTERM : List Char := "SIGTERM".toList

def sigKILL : List Char := "SIGKILL".toList

/-- Map.get: first entry with the key. -/
def getK (k : JsonId) : List (JsonId × ReqInfo) → Option ReqInfo
  | [] => none
  | (k', v) :: rest => if k' = k then some v else getK k rest

/-- Map.set: replace in place if present, else append. -/
def setK (k : JsonId) (v : ReqInfo) : List (JsonId × ReqInfo) → List (JsonId × ReqInfo)
  | [] => [(k, v)]
  | (k', v') :: rest => if k' = k then (k, v) :: rest else (k', v') :: setK k v rest

/-- Map.delete: remove the entry with the key. -/
def eraseK (k : JsonId) : List (JsonId × ReqInfo) → List (JsonId × ReqInfo)
  | [] => []
  | (k', v) :: rest => if k' = k then rest else (k', v) :: eraseK k rest

/-- clearTimeout: disarm the timer with the given handle. -/
def clearT (tid : Nat) (ts : List Timer) : List Timer :=
  ts.filter (fun t => !(t.tid == tid))

/-- Clear the timeouts of every entry of a pending map, in iteration order
(the forEach loops of the failure paths). -/
def clearAllT : List (JsonId × ReqInfo) → List Timer → List Timer
  | [], ts => ts
  | p :: ps, ts => clearAllT ps (clearT p.2.tid ts)

/-- Session state just after the connect branch spawned the child. -/
structure S where
  wsOpen : Bool
  shuttingDown : Bool
  hasLocalProc : Bool
  hasConnProc : Bool
  inRegistry : Bool
  exited : Bool
  killed : Bool
  isInit : Bool
  pending : List (JsonId × ReqInfo)
  timers : List Timer
  nextTid : Nat
  lineBuf : List Char
  totalSize : Nat
  stdoutBuf : List Char
  stderrBuf : List Char
  deriving DecidableEq

/-- Initial state of a session whose connect message has just spawned a child:
the only armed timer is the 10s initialization-check logger. -/
def initS : S where
  wsOpen := true
  shuttingDown := false
  hasLocalProc := true
  hasConnProc := true
  inRegistry := true
  exited := false
  killed := false
  isInit := false
  pending := []
  timers := [⟨0, 10000, .initCheck⟩]
  nextTid := 1
  lineBuf := []
  totalSize := 0
  stdoutBuf := []
  stderrBuf := []

/-- The ws message handler for a non-connect message: outbound size guard,
write to child stdin, register a pending request with a timeout when the
message has truthy id and method; or the process-not-available error path. -/
def wsMessage (s : S) (m : RpcMsg) : S × List Out × List (JsonId × RKind) :=
  if s.shuttingDown then (s, [], []) else
  if s.hasLocalProc && !s.killed && !s.shuttingDown then
    if (m.ser ++ ['\n']).length > MAX_RESPONSE_SIZE / 4 then
      match m.id with
      | some i =>
        if i.truthy && s.wsOpen then
          (s, [.sendErr i (-32603) (reqTooLargeMsg (m.ser ++ ['\n']).length)], [])
        else (s, [], [])
      | none => (s, [], [])
    else
      match m.id, m.method with
      | some i, some meth =>
        if i.truthy && !meth.isEmpty then
          ({ s with
             pending := setK i ⟨meth, s.nextTid⟩ s.pending,
             timers := s.timers ++ [⟨s.nextTid, REQUEST_TIMEOUT, .reqTimeout i meth⟩],
             nextTid := s.nextTid + 1 }, [.stdinWrite (m.ser ++ ['\n'])], [])
        else (s, [.stdinWrite (m.ser ++ ['\n'])], [])
      | _, _ => (s, [.stdinWrite (m.ser ++ ['\n'])], [])
  else
    match m.id with
    | some i =>
      if i.truthy && s.wsOpen then (s, [.sendErr i (-32603) notAvailMsg], [])
      else (s, [], [])
    | none => (s, [], [])

/-- The initialization tracking of the stdout handler: the first forwarded
line that parses with a truthy result flips the isInitialized flag. -/
def noteInit (p : Parsed) (s : S) : S :=
  if !s.isInit && p.hasResult then { s with isInit := true } else s

/-- Processing of one complete non-blank stdout line: parse (drop silently if
not JSON), reject an oversized frame (error response only when its id is
currently pending), otherwise resolve a matching pending request and forward
the line verbatim. -/
def processLine (parse : List Char → Option Parsed) (s : S) (line : List Char) :
    S × List Out × List (JsonId × RKind) :=
  match parse line with
  | none => (s, [], [])
  | some p =>
    if line.length > MAX_RESPONSE_SIZE / 2 then
      match p.id with
      | some i =>
        if i.truthy then
          match getK i s.pending with
          | some r =>
            ({ s with pending := eraseK i s.pending, timers := clearT r.tid s.timers },
              if s.wsOpen then [.sendErr i (-32603) (frameMsg line.length)] else [],
              [(i, .frameSize)])
          | none => (s, [], [])
        else (s, [], [])
      | none => (s, [], [])
    else
      match p.id with
      | some i =>
        if i.truthy then
          match getK i s.pending with
          | some r =>
            (noteInit p
                { s with pending := eraseK i s.pending, timers := clearT r.tid s.timers },
              [.sendLine line], [(i, RKind.response)])
          | none => (noteInit p s, [.sendLine line], [])
        else (noteInit p s, [.sendLine line], [])
      | none => (noteInit p s, [.sendLine line], [])

/-- Fold `processLine` over the emitted lines in order. -/
def processLines (parse : List Char → Option Parsed) :
    S → List (List Char) → S × List Out × List (JsonId × RKind)
  | s, [] => (s, [], [])
  | s, l :: ls =>
    let r := processLine parse s l
    let q := processLines parse r.1 ls
    (q.1, r.2.1 ++ q.2.1, r.2.2 ++ q.2.2)

/-- The stdout data handler: append the chunk to both buffers and the counter;
on cumulative breach fail every pending request and reset the framing buffer
and counter; otherwise frame and process the complete lines.  (The per-entry
readyState re-check of the breach loop is hoisted out of the loop: readyState
cannot change inside a synchronous handler.) -/
def stdoutData (parse : List Char → Option Parsed) (s : S) (chunk : List Char) :
    S × List Out × List (JsonId × RKind) :=
  if s.shuttingDown || !s.wsOpen then (s, [], []) else
  if s.totalSize + chunk.length > MAX_RESPONSE_SIZE then
    ({ s with
        stdoutBuf := s.stdoutBuf ++ chunk,
        pending := [],
        timers := clearAllT s.pending s.timers,
        lineBuf := [],
        totalSize := 0 },
      if s.wsOpen then
        s.pending.map
          (fun p => Out.sendErr p.1 (-32603) (breachMsg (s.totalSize + chunk.length)))
      else [],
      s.pending.map (fun p => (p.1, RKind.breach)))
  else
    processLines parse
      { s with
        stdoutBuf := s.stdoutBuf ++ chunk,
        lineBuf := (emitParts (splitNl (s.lineBuf ++ chunk))).2,
        totalSize := s.totalSize + chunk.length }
      ((emitParts (splitNl (s.lineBuf ++ chunk))).1.filter (fun l => !(trim l).isEmpty))

/-- The stderr data handler of the size-limited revision: log and append to the
stderr buffer only; nothing is sent to the client. -/
def stderrData (s : S) (chunk : List Char) : S × List Out × List (JsonId × RKind) :=
  ({ s with stderrBuf := s.stderrBuf ++ trim chunk ++ ['\n'] }, [], [])

/-- The process exit handler: fail every pending request with a synthesized
error, clear their timers, possibly send the detailed exit report, and null the
registry entry's process handle. -/
def procExit (s : S) (code : Int) : S × List Out × List (JsonId × RKind) :=
  if s.exited then (s, [], []) else
  ({ s with
      exited := true,
      pending := [],
      timers := clearAllT s.pending s.timers,
      hasConnProc := if s.inRegistry then false else s.hasConnProc },
    (if s.wsOpen then s.pending.map (fun p => Out.sendErr p.1 (-32603) (exitMsg code))
      else []) ++
      (if (code ≠ 0 ∨ s.isInit = false) ∧ s.wsOpen = true then
        [.sendExitReport code s.stdoutBuf s.stderrBuf]
      else []),
    s.pending.map (fun p => (p.1, RKind.procGone)))

/-- The ws close handler: clear all pending timeouts, empty the map, send
SIGTERM if the registry entry still holds a not-yet-killed process handle, arm
the 2-second grace timer, and deregister the connection.  Note Node sets the
handle's killed flag at the SIGTERM call. -/
def wsClose (s : S) : S × List Out × List (JsonId × RKind) :=
  if s.inRegistry then
    if s.hasConnProc && !s.killed then
      ({ s with
          wsOpen := false,
          pending := [],
          timers := clearAllT s.pending s.timers ++ [⟨s.nextTid, 2000, .graceKill⟩],
          nextTid := s.nextTid + 1,
          killed := true,
          inRegistry := false },
        [.killSig sigTERM], s.pending.map (fun p => (p.1, RKind.connClosed)))
    else
      ({ s with
          wsOpen := false,
          pending := [],
          timers := clearAllT s.pending s.timers,
          inRegistry := false },
        [], s.pending.map (fun p => (p.1, RKind.connClosed)))
  else ({ s with wsOpen := false }, [], [])

/-- The process-wide shutdown handler, restricted to one session: set the
global flag, clear pending timeouts, SIGKILL the child immediately.  (It also
initiates a ws close, which arrives later as its own event.) -/
def shutdownStep (s : S) : S × List Out × List (JsonId × RKind) :=
  if s.shuttingDown then (s, [], []) else
  if s.inRegistry then
    if s.hasConnProc && !s.killed then
      ({ s with
          shuttingDown := true,
          pending := [],
          timers := clearAllT s.pending s.timers,
          killed := true },
        [.killSig sigKILL], s.pending.map (fun p => (p.1, RKind.shutdown)))
    else
      ({ s with
          shuttingDown := true,
          pending := [],
          timers := clearAllT s.pending s.timers },
        [], s.pending.map (fun p => (p.1, RKind.shutdown)))
  else ({ s with shuttingDown := true }, [], [])

/-- Firing of an armed timer: the timer is consumed; a request timeout deletes
the pending entry unconditionally and sends the synthesized timeout error if
the socket is open; the grace timer SIGKILLs only a handle whose killed flag is
still false; the init-check timer only logs. -/
def fireTimer (s : S) (tid : Nat) : S × List Out × List (JsonId × RKind) :=
  match s.timers.find? (fun t => t.tid == tid) with
  | none => (s, [], [])
  | some t =>
    match t.kind with
    | .initCheck => ({ s with timers := clearT tid s.timers }, [], [])
    | .graceKill =>
      if s.hasConnProc && !s.killed then
        ({ s with timers := clearT tid s.timers, killed := true }, [.killSig sigKILL], [])
      else ({ s with timers := clearT tid s.timers }, [], [])
    | .reqTimeout i _m0 =>
      ({ s with timers := clearT tid s.timers, pending := eraseK i s.pending },
        if s.wsOpen then [.sendErr i (-32603) timeoutMsg] else [],
        match getK i s.pending with
        | some _ => [(i, .timeout)]
        | none => [])

/-- Session events after the child has been spawned (reconnects are modelled
separately, see the connect model below). -/
inductive Ev where
  | clientRpc (m : RpcMsg)
  | stdoutChunk (c : List Char)
  | stderrChunk (c : List Char)
  | fire (tid : Nat)
  | procEnd (code : Int)
  | connClose
  | shutdownSig
  deriving DecidableEq

/-- Dispatch one event to its handler. -/
def step (parse : List Char → Option Parsed) (s : S) :
    Ev → S × List Out × List (JsonId × RKind)
  | .clientRpc m => wsMessage s m
  | .stdoutChunk c => stdoutData parse s c
  | .stderrChunk c => stderrData s c
  | .fire tid => fireTimer s tid
  | .procEnd code => procExit s code
  | .connClose => wsClose s
  | .shutdownSig => shutdownStep s

/-- Run a list of events, accumulating outputs and resolutions. -/
def run (parse : List Char → Option Parsed) (s : S) :
    List Ev → S × List Out × List (JsonId × RKind)
  | [] => (s, [], [])
  | e :: es =>
    let r := step parse s e
    let q := run parse r.1 es
    (q.1, r.2.1 ++ q.2.1, r.2.2 ++ q.2.2)

/-- The truthy request id carried by a client message event, if any. -/
def evReqId : Ev → Option JsonId
  | .clientRpc m =>
    match m.id with
    | some i => if i.truthy then some i else none
    | none => none
  | _ => none

/-- All truthy client request ids of a trace, in order. -/
def requestIds (es : List Ev) : List JsonId := es.filterMap evReqId

/-- Number of resolutions recorded for an id. -/
def resCount (i : JsonId) (rs : List (JsonId × RKind)) : Nat :=
  (rs.filter (fun r => r.1 == i)).length

/-- The id carried by a synthesized error response output, if any. -/
def errId : Out → Option JsonId
  | .sendErr i _ _ => some i
  | _ => none

/-- Indicator on a pending map: is the id present. -/
def pendL (i : JsonId) (l : List (JsonId × ReqInfo)) : Nat :=
  match getK i l with
  | some _ => 1
  | none => 0

/-- Indicator: is the id currently pending in the session. -/
def pendInd (i : JsonId) (s : S) : Nat := pendL i s.pending

/-- Contribution of one event to the registration count of an id. -/
def regInd (i : JsonId) (e : Ev) : Nat :=
  match evReqId e with
  | some j => if j = i then 1 else 0
  | none => 0

/-- The bookkeeping invariant of a session: pending ids are distinct, pending
timeout handles are distinct, every pending entry has its request timer armed,
armed timer handles are distinct, and all handles are below the allocation
counter. -/
def Inv (s : S) : Prop :=
  (s.pending.map Prod.fst).Nodup ∧
  (s.pending.map (fun p => p.2.tid)).Nodup ∧
  (∀ p ∈ s.pending,
    (⟨p.2.tid, REQUEST_TIMEOUT, TKind.reqTimeout p.1 p.2.method⟩ : Timer) ∈ s.timers) ∧
  (s.timers.map Timer.tid).Nodup ∧
  (∀ t ∈ s.timers, t.tid < s.nextTid)

/-! ## The connect branch (both revisions)

On a connect control message the handler validates the command shape and the
working directory, then reassigns the closure variable:  mcpProcess = spawn(...).
No signal is ever sent to a previously spawned child.  We track every child the
session ever spawned, with its liveness. -/

structure ConnectMsg where
  validCmd : Bool
  wdExists : Bool
  deriving DecidableEq

inductive COut where
  | spawnProc
  | wdErrMsg
  | killChild (idx : Nat) (sig : List Char)
  deriving DecidableEq

structure CProc where
  alive : Bool
  deriving DecidableEq

structure CS where
  procs : List CProc
  localProc : Option Nat
  deriving DecidableEq

/-- The connect branch: an invalid command throws (caught and logged), a
missing working directory sends a type:error message, otherwise a new child is
spawned and the handle reassigned; the previous child is left untouched. -/
def connectHandler (s : CS) (m : ConnectMsg) : CS × List COut :=
  if !m.validCmd then (s, []) else
  if !m.wdExists then (s, [.wdErrMsg]) else
  ({ procs := s.procs ++ [⟨true⟩], localProc := some s.procs.length }, [.spawnProc])

/-- Number of live children owned by the session. -/
def liveCount (s : CS) : Nat := (s.procs.filter (fun p => p.alive)).length

/-! ## The stderr handler of the original revision (mcp-bridge/server.js)

That revision forwards each stderr chunk to the client as an error-shaped
JSON-RPC message (code -32000, no id) and does not touch the process. -/

structure V1S where
  wsOpen : Bool
  procAlive : Bool
  deriving DecidableEq

inductive V1Out where
  | sendErrorShaped (code : Int) (msg : List Char)
  deriving DecidableEq

def mcpServerErrorHead : List Char := "MCP Server Error: ".toList

def stderrHandlerV1 (s : V1S) (chunk : List Char) : V1S × List V1Out :=
  (s, if s.wsOpen then [.sendErrorShaped (-32000) (mcpServerErrorHead ++ trim chunk)] else [])

/-! ## Concrete inputs used by the witnesses and counterexamples -/

/-- A parse oracle that treats every line as non-JSON. -/
def parseNone : List Char → Option Parsed := fun _ => none

/-- A parse oracle standing for JSON.parse on the concrete lines the scenarios
use: any line of more than 100 characters parses with id 1 and no result. -/
def parseBig : List Char → Option Parsed := fun l =>
  if l.length > 100 then some ⟨some (.num 1), false⟩ else none

def meth7 : List Char := "tools/list".toList

/-- A small client request with id 7. -/
def msg7 : RpcMsg := ⟨some (.num 7), some meth7, "rq7".toList⟩

/-- A session with two pending requests and 49990 buffered bytes (for the
cumulative-breach scenario). -/
def c2State : S :=
  { initS with
    pending := [(.num 1, ⟨"tools/list".toList, 1⟩), (.num 2, ⟨"tools/call".toList, 2⟩)],
    timers := [⟨0, 10000, .initCheck⟩,
      ⟨1, REQUEST_TIMEOUT, .reqTimeout (.num 1) "tools/list".toList⟩,
      ⟨2, REQUEST_TIMEOUT, .reqTimeout (.num 2) "tools/call".toList⟩],
    nextTid := 3,
    totalSize := 49990 }

def c2Chunk : List Char := List.replicate 20 'z'

/-- An 26000-character stdout line (above the 25000-character per-frame
threshold), standing for an oversized JSON response with id 1. -/
def bigLine : List Char := List.replicate 26000 'a'

/-- The intermediate session state after the stdout handler has appended a
chunk to the debugging buffer and the cumulative counter, with an empty
carry-over buffer (the single-complete-line case). -/
def bumpStdout (s : S) (chunk : List Char) : S :=
  { s with
    stdoutBuf := s.stdoutBuf ++ chunk,
    lineBuf := [],
    totalSize := s.totalSize + chunk.length }

/-- A session with a pending request with id 1 (handle 1). -/
def pend1State : S :=
  { initS with
    pending := [(.num 1, ⟨"tools/call".toList, 1⟩)],
    timers := [⟨0, 10000, .initCheck⟩,
      ⟨1, REQUEST_TIMEOUT, .reqTimeout (.num 1) "tools/call".toList⟩],
    nextTid := 2 }

/-- A 12500-character serialisation: with the trailing newline the message
exceeds the 12500-byte outbound limit (MAX_RESPONSE_SIZE / 4). -/
def bigSer : List Char := List.replicate 12500 'x'

/-- An oversized client request whose JSON-RPC id is the falsy number 0. -/
def msg0Big : RpcMsg := ⟨some (.num 0), some "tools/call".toList, bigSer⟩

/-- An oversized client request with truthy id 7. -/
def msg7Big : RpcMsg := ⟨some (.num 7), some "tools/call".toList, bigSer⟩

/-- An oversized client notification-style message with id null. -/
def msgNullBig : RpcMsg := ⟨some .null, some "tools/call".toList, bigSer⟩

/-- A small client message with a method and id null. -/
def msgNull : RpcMsg := ⟨some .null, some "tools/call".toList, "nt".toList⟩

/-- A concrete child stdout line whose parse has a falsy (null) id. -/
def notifLine : List Char := "notif-response".toList

/-- Parse oracle for `notifLine`: it parses with id null and no result. -/
def parseNotif : List Char → Option Parsed := fun l =>
  if l = notifLine then some ⟨some .null, false⟩ else none

/-- Trace used by the C1 witness: one registered request. -/
def evs1 : List Ev := [.clientRpc msg7]

/-- Initial state of the connect model: no child ever spawned. -/
def cInit : CS := ⟨[], none⟩

/-- A valid connect message (well-formed command, existing working dir). -/
def cMsg : ConnectMsg := ⟨true, true⟩

end McpBridge

namespace McpBridge

/-! ### Framer lemmas -/

theorem splitNl_ne_nil (l : List Char) : splitNl l ≠ [] := by
  cases l with
  | nil => simp [splitNl]
  | cons c rest =>
    simp only [splitNl]
    by_cases h : c = '\n'
    · simp [h]
    · simp only [h, if_false]
      cases splitNl rest <;> simp

theorem splitNl_cons_nl (rest : List Char) : splitNl ('\n' :: rest) = [] :: splitNl rest := by
  simp [splitNl]

theorem splitNl_cons (c : Char) (rest x : List Char) (xs : List (List Char))
    (h : ¬ c = '\n') (hs : splitNl rest = x :: xs) :
    splitNl (c :: rest) = (c :: x) :: xs := by
  simp [splitNl, h, hs]

theorem emitParts_cons (x : List Char) (l : List (List Char)) (h : l ≠ []) :
    emitParts (x :: l) = (x :: (emitParts l).1, (emitParts l).2) := by
  cases l with
  | nil => exact absurd rfl h
  | cons y ys => rfl

theorem emitParts_append (l₁ l₂ : List (List Char)) (h : l₂ ≠ []) :
    emitParts (l₁ ++ l₂) = (l₁ ++ (emitParts l₂).1, (emitParts l₂).2) := by
  induction l₁ with
  | nil => simp
  | cons x xs ih =>
    have hne : xs ++ l₂ ≠ [] := by
      intro hc
      exact h (List.append_eq_nil.mp hc).2
    rw [List.cons_append, emitParts_cons x (xs ++ l₂) hne, ih]
    simp

theorem splitNl_append (a b : List Char) :
    splitNl (a ++ b) =
      (emitParts (splitNl a)).1 ++ splitNl ((emitParts (splitNl a)).2 ++ b) := by
  induction a with
  | nil => simp [splitNl, emitParts]
  | cons c a ih =>
    by_cases h : c = '\n'
    · subst h
      have hne := splitNl_ne_nil a
      rw [List.cons_append, splitNl_cons_nl (a ++ b), splitNl_cons_nl a,
        emitParts_cons _ _ hne, ih]
      simp
    · rw [List.cons_append]
      rcases hsp : splitNl a with _ | ⟨x, xs⟩
      · exact absurd hsp (splitNl_ne_nil a)
      · cases xs with
        | nil =>
          simp only [hsp, emitParts, List.nil_append] at ih
          rcases hsp2 : splitNl (x ++ b) with _ | ⟨y, ys⟩
          · exact absurd hsp2 (splitNl_ne_nil _)
          · have hab : splitNl (a ++ b) = y :: ys := by rw [ih, hsp2]
            rw [splitNl_cons c (a ++ b) y ys h hab,
              splitNl_cons c a x [] h hsp]
            simp only [emitParts, List.nil_append, List.cons_append]
            rw [splitNl_cons c (x ++ b) y ys h hsp2]
        | cons r rs =>
          simp only [hsp] at ih
          have hne : r :: rs ≠ [] := by simp
          rw [emitParts_cons x (r :: rs) hne] at ih
          simp only at ih
          rw [List.cons_append] at ih
          have hne2 : (emitParts (r :: rs)).1 ++
              splitNl ((emitParts (r :: rs)).2 ++ b) ≠ [] := by
            intro hc
            exact splitNl_ne_nil _ (List.append_eq_nil.mp hc).2
          rcases hm : (emitParts (r :: rs)).1 ++ splitNl ((emitParts (r :: rs)).2 ++ b)
            with _ | ⟨z, zs⟩
          · exact absurd hm hne2
          · rw [hm] at ih
            rw [splitNl_cons c (a ++ b) x (z :: zs) h ih,
              splitNl_cons c a x (r :: rs) h hsp,
              emitParts_cons (c :: x) (r :: rs) hne]
            simp [hm]

theorem framerStep_append (buf c₁ c₂ : List Char) :
    framerStep buf (c₁ ++ c₂) =
      ((framerStep buf c₁).1 ++ (framerStep (framerStep buf c₁).2 c₂).1,
        (framerStep (framerStep buf c₁).2 c₂).2) := by
  unfold framerStep
  rw [← List.append_assoc, splitNl_append (buf ++ c₁) c₂,
    emitParts_append _ _ (splitNl_ne_nil _)]

/-- The carry-over buffer left by the framer never contains a newline. -/
theorem lastPart_no_nl (l : List Char) : '\n' ∉ (emitParts (splitNl l)).2 := by
  induction l with
  | nil => simp [splitNl, emitParts]
  | cons c rest ih =>
    by_cases h : c = '\n'
    · subst h
      rw [splitNl_cons_nl rest, emitParts_cons _ _ (splitNl_ne_nil rest)]
      exact ih
    · rcases hsp : splitNl rest with _ | ⟨x, xs⟩
      · exact absurd hsp (splitNl_ne_nil rest)
      · cases xs with
        | nil =>
          rw [splitNl_cons c rest x [] h hsp]
          simp only [hsp, emitParts] at ih ⊢
          intro hc
          rcases List.mem_cons.mp hc with hc | hc
          · exact h hc.symm
          · exact ih hc
        | cons r rs =>
          rw [splitNl_cons c rest x (r :: rs) h hsp]
          simp only [hsp] at ih
          rw [emitParts_cons x (r :: rs) (by simp)] at ih
          rw [emitParts_cons (c :: x) (r :: rs) (by simp)]
          exact ih

/-- A newline-free buffer splits into a single part, so an empty chunk emits
nothing. -/
theorem splitNl_no_nl (l : List Char) (h : '\n' ∉ l) : splitNl l = [l] := by
  induction l with
  | nil => simp [splitNl]
  | cons c rest ih =>
    have hc : ¬ c = '\n' := fun hc => h (by simp [hc])
    have hr : '\n' ∉ rest := fun hr => h (List.mem_cons_of_mem _ hr)
    simp only [splitNl, if_neg hc, ih hr]

theorem feed_eq_join (buf : List Char) (hbuf : '\n' ∉ buf) (cs : List (List Char)) :
    feed buf cs = framerStep buf cs.flatten := by
  induction cs generalizing buf with
  | nil =>
    simp only [feed, List.flatten_nil, framerStep, List.append_nil,
      splitNl_no_nl buf hbuf, emitParts]
  | cons c cs ih =>
    simp only [feed, List.flatten_cons]
    rw [framerStep_append buf c cs.flatten]
    have hb2 : '\n' ∉ (framerStep buf c).2 := lastPart_no_nl (buf ++ c)
    rw [ih _ hb2]

/-- C4: Framer concatenation-invariance: feeding any two chunkings of the same
byte stream to the framer (append chunk to the carry-over buffer, split on
newline, emit every element but the last, which becomes the new buffer)
produces the same ordered list of complete lines (and the same final buffer),
provided the starting carry-over buffer is a framer buffer, i.e. contains no
newline. -/
theorem framer_concat_invariance (buf : List Char) (cs1 cs2 : List (List Char))
    (hbuf : '\n' ∉ buf) (h : cs1.flatten = cs2.flatten) :
    feed buf cs1 = feed buf cs2 := by
  rw [feed_eq_join buf hbuf cs1, feed_eq_join buf hbuf cs2, h]

/-- Witness for C4 at two concrete chunkings of the stream "ab\ncd\ne". -/
theorem framer_concat_invariance_witness :
    ('\n' ∉ ([] : List Char)) ∧
      ["ab\nc".toList, "d\ne".toList].flatten = ["ab".toList, "\ncd\ne".toList].flatten ∧
      feed [] ["ab\nc".toList, "d\ne".toList] = feed [] ["ab".toList, "\ncd\ne".toList] :=
  ⟨by decide, by decide,
    framer_concat_invariance [] ["ab\nc".toList, "d\ne".toList]
      ["ab".toList, "\ncd\ne".toList] (by decide) (by decide)⟩

/-! ### Association-list and timer lemmas -/

theorem getK_some_mem {k : JsonId} {v : ReqInfo} :
    ∀ {l : List (JsonId × ReqInfo)}, getK k l = some v → (k, v) ∈ l := by
  intro l
  induction l with
  | nil => intro h; simp [getK] at h
  | cons p rest ih =>
    rcases p with ⟨k', v'⟩
    simp only [getK]
    by_cases hk : k' = k
    · subst hk
      intro h
      simp only [if_pos rfl] at h
      cases h
      exact List.mem_cons_self _ _
    · intro h
      rw [if_neg hk] at h
      exact List.mem_cons_of_mem _ (ih h)

theorem getK_none_not_mem {k : JsonId} :
    ∀ {l : List (JsonId × ReqInfo)}, getK k l = none → k ∉ l.map Prod.fst := by
  intro l
  induction l with
  | nil => intro _; simp
  | cons p rest ih =>
    rcases p with ⟨k', v'⟩
    simp only [getK]
    by_cases hk : k' = k
    · subst hk; simp
    · intro h
      rw [if_neg hk] at h
      simp only [List.map_cons, List.mem_cons]
      rintro (hc | hc)
      · exact hk hc.symm
      · exact ih h hc

theorem not_mem_getK_none {k : JsonId} :
    ∀ {l : List (JsonId × ReqInfo)}, k ∉ l.map Prod.fst → getK k l = none := by
  intro l
  induction l with
  | nil => intro _; rfl
  | cons p rest ih =>
    rcases p with ⟨k', v'⟩
    intro h
    simp only [List.map_cons, List.mem_cons] at h
    push_neg at h
    have hne : ¬ k' = k := fun hc => h.1 hc.symm
    simp only [getK, if_neg hne]
    exact ih h.2

theorem getK_setK_self (k : JsonId) (v : ReqInfo) :
    ∀ (l : List (JsonId × ReqInfo)), getK k (setK k v l) = some v := by
  intro l
  induction l with
  | nil => simp [setK, getK]
  | cons p rest ih =>
    rcases p with ⟨k', v'⟩
    simp only [setK]
    by_cases hk : k' = k
    · simp [hk, getK]
    · simp [getK, hk, ih]

theorem getK_setK_ne {i k : JsonId} (v : ReqInfo) (h : i ≠ k) :
    ∀ (l : List (JsonId × ReqInfo)), getK i (setK k v l) = getK i l := by
  intro l
  have hne : ¬ k = i := fun hc => h hc.symm
  induction l with
  | nil => simp [setK, getK, hne]
  | cons p rest ih =>
    rcases p with ⟨k', v'⟩
    by_cases hk : k' = k
    · subst hk
      simp [setK, getK, hne]
    · simp [setK, getK, hk, ih]

theorem eraseK_sublist (k : JsonId) :
    ∀ (l : List (JsonId × ReqInfo)), List.Sublist (eraseK k l) l := by
  intro l
  induction l with
  | nil => simp [eraseK]
  | cons p rest ih =>
    rcases p with ⟨k', v'⟩
    simp only [eraseK]
    by_cases hk : k' = k
    · rw [if_pos hk]
      exact List.sublist_cons_self _ _
    · rw [if_neg hk]
      exact ih.cons₂ _

theorem getK_eraseK_ne {i k : JsonId} (h : i ≠ k) :
    ∀ (l : List (JsonId × ReqInfo)), getK i (eraseK k l) = getK i l := by
  intro l
  have hne : ¬ k = i := fun hc => h hc.symm
  induction l with
  | nil => rfl
  | cons p rest ih =>
    rcases p with ⟨k', v'⟩
    by_cases hk : k' = k
    · subst hk
      simp [eraseK, getK, hne]
    · simp [eraseK, getK, hk, ih]

theorem getK_eraseK_self {k : JsonId} :
    ∀ {l : List (JsonId × ReqInfo)}, (l.map Prod.fst).Nodup →
      getK k (eraseK k l) = none := by
  intro l
  induction l with
  | nil => intro _; rfl
  | cons p rest ih =>
    rcases p with ⟨k', v'⟩
    intro hA
    simp only [List.map_cons, List.nodup_cons] at hA
    simp only [eraseK]
    by_cases hk : k' = k
    · subst hk
      rw [if_pos rfl]
      exact not_mem_getK_none hA.1
    · rw [if_neg hk]
      simp [getK, hk, ih hA.2]

theorem mem_eraseK_ne {k : JsonId} {q : JsonId × ReqInfo} :
    ∀ {l : List (JsonId × ReqInfo)}, (l.map Prod.fst).Nodup →
      q ∈ eraseK k l → q.1 ≠ k ∧ q ∈ l := by
  intro l
  induction l with
  | nil => intro _ h; simp [eraseK] at h
  | cons p rest ih =>
    rcases p with ⟨k', v'⟩
    intro hA hq
    simp only [List.map_cons, List.nodup_cons] at hA
    simp only [eraseK] at hq
    by_cases hk : k' = k
    · subst hk
      rw [if_pos rfl] at hq
      refine ⟨?_, List.mem_cons_of_mem _ hq⟩
      intro hc
      exact hA.1 (hc ▸ (List.mem_map_of_mem Prod.fst hq))
    · rw [if_neg hk] at hq
      rcases List.mem_cons.mp hq with hq | hq
      · subst hq
        exact ⟨hk, List.mem_cons_self _ _⟩
      · rcases ih hA.2 hq with ⟨h1, h2⟩
        exact ⟨h1, List.mem_cons_of_mem _ h2⟩

theorem mem_setK {k : JsonId} {v : ReqInfo} {q : JsonId × ReqInfo} :
    ∀ {l : List (JsonId × ReqInfo)}, q ∈ setK k v l → q = (k, v) ∨ q ∈ l := by
  intro l
  induction l with
  | nil => intro h; simp [setK] at h; exact Or.inl h
  | cons p rest ih =>
    rcases p with ⟨k', v'⟩
    intro hq
    simp only [setK] at hq
    by_cases hk : k' = k
    · rw [if_pos hk] at hq
      rcases List.mem_cons.mp hq with hq | hq
      · exact Or.inl hq
      · exact Or.inr (List.mem_cons_of_mem _ hq)
    · rw [if_neg hk] at hq
      rcases List.mem_cons.mp hq with hq | hq
      · exact Or.inr (hq ▸ List.mem_cons_self _ _)
      · rcases ih hq with h | h
        · exact Or.inl h
        · exact Or.inr (List.mem_cons_of_mem _ h)

theorem nodup_keys_setK (k : JsonId) (v : ReqInfo) :
    ∀ {l : List (JsonId × ReqInfo)}, (l.map Prod.fst).Nodup →
      ((setK k v l).map Prod.fst).Nodup := by
  intro l
  induction l with
  | nil => intro _; simp [setK]
  | cons p rest ih =>
    rcases p with ⟨k', v'⟩
    intro hA
    simp only [List.map_cons, List.nodup_cons] at hA
    simp only [setK]
    by_cases hk : k' = k
    · subst hk
      rw [if_pos rfl]
      simp only [List.map_cons, List.nodup_cons]
      exact hA
    · rw [if_neg hk]
      simp only [List.map_cons, List.nodup_cons]
      refine ⟨?_, ih hA.2⟩
      intro hc
      rcases List.mem_map.mp hc with ⟨q, hq, hq1⟩
      rcases mem_setK hq with h | h
      · subst h
        exact hk hq1.symm
      · exact hA.1 (hq1 ▸ List.mem_map_of_mem Prod.fst h)

theorem nodup_tids_setK (k : JsonId) (v : ReqInfo) :
    ∀ {l : List (JsonId × ReqInfo)}, (l.map (fun p => p.2.tid)).Nodup →
      (∀ p ∈ l, p.2.tid ≠ v.tid) →
      ((setK k v l).map (fun p => p.2.tid)).Nodup := by
  intro l
  induction l with
  | nil => intro _ _; simp [setK]
  | cons p rest ih =>
    rcases p with ⟨k', v'⟩
    intro hB hfresh
    simp only [List.map_cons, List.nodup_cons] at hB
    simp only [setK]
    by_cases hk : k' = k
    · subst hk
      rw [if_pos rfl]
      simp only [List.map_cons, List.nodup_cons]
      refine ⟨?_, hB.2⟩
      intro hc
      rcases List.mem_map.mp hc with ⟨q, hq, hq1⟩
      exact hfresh q (List.mem_cons_of_mem _ hq) hq1
    · rw [if_neg hk]
      simp only [List.map_cons, List.nodup_cons]
      refine ⟨?_, ih hB.2 (fun p hp => hfresh p (List.mem_cons_of_mem _ hp))⟩
      intro hc
      rcases List.mem_map.mp hc with ⟨q, hq, hq1⟩
      rcases mem_setK hq with h | h
      · subst h
        exact hfresh (k', v') (List.mem_cons_self _ _) hq1.symm
      · exact hB.1 (hq1 ▸ List.mem_map_of_mem (fun p => p.2.tid) h)

theorem mem_clearT {t : Timer} {tid : Nat} {ts : List Timer} :
    t ∈ clearT tid ts ↔ t ∈ ts ∧ t.tid ≠ tid := by
  simp [clearT, List.mem_filter]

theorem clearT_sublist (tid : Nat) (ts : List Timer) : List.Sublist (clearT tid ts) ts :=
  List.filter_sublist _

theorem clearAllT_sublist (ps : List (JsonId × ReqInfo)) :
    ∀ (ts : List Timer), List.Sublist (clearAllT ps ts) ts := by
  induction ps with
  | nil => intro ts; simp [clearAllT]
  | cons p ps ih =>
    intro ts
    simp only [clearAllT]
    exact (ih (clearT p.2.tid ts)).trans (clearT_sublist _ _)

theorem mem_clearAllT {t : Timer} {ps : List (JsonId × ReqInfo)} :
    ∀ {ts : List Timer}, t ∈ clearAllT ps ts ↔ t ∈ ts ∧ ∀ p ∈ ps, t.tid ≠ p.2.tid := by
  induction ps with
  | nil => intro ts; simp [clearAllT]
  | cons p ps ih =>
    intro ts
    simp only [clearAllT]
    constructor
    · intro h
      rcases ih.mp h with ⟨h1, h2⟩
      rcases mem_clearT.mp h1 with ⟨h3, h4⟩
      refine ⟨h3, ?_⟩
      intro q hq
      rcases List.mem_cons.mp hq with hq | hq
      · exact hq ▸ h4
      · exact h2 q hq
    · intro h
      refine ih.mpr ⟨mem_clearT.mpr ⟨h.1, h.2 p (List.mem_cons_self _ _)⟩, ?_⟩
      intro q hq
      exact h.2 q (List.mem_cons_of_mem _ hq)

theorem find_tid_eq {t : Timer} :
    ∀ {ts : List Timer}, (ts.map Timer.tid).Nodup → t ∈ ts →
      ts.find? (fun u => u.tid == t.tid) = some t := by
  intro ts
  induction ts with
  | nil => intro _ h; exact absurd h (List.not_mem_nil t)
  | cons u us ih =>
    intro hD ht
    simp only [List.map_cons, List.nodup_cons] at hD
    rcases List.mem_cons.mp ht with ht | ht
    · subst ht
      exact List.find?_cons_of_pos _ (by simp)
    · have hne : ¬ u.tid = t.tid := by
        intro hc
        exact hD.1 (hc ▸ List.mem_map_of_mem Timer.tid ht)
      rw [List.find?_cons_of_neg _ (by simp [hne])]
      exact ih hD.2 ht

/-! ### Counting lemmas -/

theorem resCount_nil (i : JsonId) : resCount i [] = 0 := rfl

theorem resCount_append (i : JsonId) (a b : List (JsonId × RKind)) :
    resCount i (a ++ b) = resCount i a + resCount i b := by
  simp [resCount, List.filter_append]

theorem resCount_cons (i : JsonId) (r : JsonId × RKind) (rs : List (JsonId × RKind)) :
    resCount i (r :: rs) = (if r.1 = i then 1 else 0) + resCount i rs := by
  simp only [resCount, List.filter_cons]
  by_cases h : r.1 = i
  · simp [h, Nat.add_comm]
  · simp [h]

theorem pendL_cons (i j : JsonId) (v : ReqInfo) (rest : List (JsonId × ReqInfo)) :
    pendL i ((j, v) :: rest) = if j = i then 1 else pendL i rest := by
  simp only [pendL, getK]
  by_cases h : j = i
  · simp [h]
  · simp [h]

theorem pendL_of_getK_some {i : JsonId} {l : List (JsonId × ReqInfo)} {r : ReqInfo}
    (h : getK i l = some r) : pendL i l = 1 := by
  simp [pendL, h]

theorem pendL_of_getK_none {i : JsonId} {l : List (JsonId × ReqInfo)}
    (h : getK i l = none) : pendL i l = 0 := by
  simp [pendL, h]

/-- The synthesized error responses of a failAll loop resolve each pending id
exactly its multiplicity, which under distinct keys is the pending
indicator. -/
theorem resCount_map_const (i : JsonId) (k : RKind) :
    ∀ {l : List (JsonId × ReqInfo)}, (l.map Prod.fst).Nodup →
      resCount i (l.map (fun p => (p.1, k))) = pendL i l := by
  intro l
  induction l with
  | nil => intro _; simp [resCount, pendL, getK]
  | cons p rest ih =>
    rcases p with ⟨j, v⟩
    intro hA
    simp only [List.map_cons, List.nodup_cons] at hA
    rw [List.map_cons, resCount_cons, pendL_cons]
    by_cases hj : j = i
    · rw [if_pos hj, if_pos hj]
      have h0 : getK i rest = none := hj ▸ not_mem_getK_none hA.1
      have h1 : resCount i (rest.map fun p => (p.1, k)) = 0 :=
        (ih hA.2).trans (pendL_of_getK_none h0)
      rw [h1]
    · rw [if_neg hj, if_neg hj, ih hA.2]
      omega

/-! ### Shape of the handlers: every step either leaves the request-tracker
state alone, registers one fresh entry, resolves one existing entry, or fails
all entries. -/

theorem wsMessage_res (s : S) (m : RpcMsg) : (wsMessage s m).2.2 = [] := by
  unfold wsMessage
  repeat' split
  all_goals rfl

/-- The registered state produced by the pending-tracking branch. -/
theorem wsMessage_cases (s : S) (m : RpcMsg) :
    (wsMessage s m).1 = s ∨
      (∃ i meth, m.id = some i ∧ i.truthy = true ∧
        (wsMessage s m).1 =
          { s with
            pending := setK i ⟨meth, s.nextTid⟩ s.pending,
            timers := s.timers ++ [⟨s.nextTid, REQUEST_TIMEOUT, .reqTimeout i meth⟩],
            nextTid := s.nextTid + 1 }) := by
  unfold wsMessage
  repeat' split
  all_goals try exact Or.inl rfl
  rename_i i meth hid hmeth htr
  rcases Bool.and_eq_true_iff.mp htr with ⟨ht1, _⟩
  exact Or.inr ⟨i, meth, hid, ht1, rfl⟩

theorem noteInit_pending (p : Parsed) (s : S) : (noteInit p s).pending = s.pending := by
  unfold noteInit
  split <;> rfl

theorem noteInit_timers (p : Parsed) (s : S) : (noteInit p s).timers = s.timers := by
  unfold noteInit
  split <;> rfl

theorem noteInit_nextTid (p : Parsed) (s : S) : (noteInit p s).nextTid = s.nextTid := by
  unfold noteInit
  split <;> rfl

theorem processLine_cases (parse : List Char → Option Parsed) (s : S) (line : List Char) :
    ((processLine parse s line).1.pending = s.pending ∧
      (processLine parse s line).1.timers = s.timers ∧
      (processLine parse s line).1.nextTid = s.nextTid ∧
      (processLine parse s line).2.2 = []) ∨
    (∃ i r k, getK i s.pending = some r ∧
      (processLine parse s line).1.pending = eraseK i s.pending ∧
      (processLine parse s line).1.timers = clearT r.tid s.timers ∧
      (processLine parse s line).1.nextTid = s.nextTid ∧
      (processLine parse s line).2.2 = [(i, k)]) := by
  unfold processLine
  split
  · exact Or.inl ⟨rfl, rfl, rfl, rfl⟩
  next p hp =>
    split
    · -- oversized frame
      split
      next i hi =>
        split
        · split
          next r hr => exact Or.inr ⟨i, r, .frameSize, hr, rfl, rfl, rfl, rfl⟩
          · exact Or.inl ⟨rfl, rfl, rfl, rfl⟩
        · exact Or.inl ⟨rfl, rfl, rfl, rfl⟩
      · exact Or.inl ⟨rfl, rfl, rfl, rfl⟩
    · -- normal frame: resolve, then possibly flip isInit (which leaves the
      -- tracker state alone)
      split
      next i hi =>
        split
        · split
          next r hr =>
            exact Or.inr ⟨i, r, .response, hr, by rw [noteInit_pending],
              by rw [noteInit_timers], by rw [noteInit_nextTid], rfl⟩
          · exact Or.inl ⟨by rw [noteInit_pending], by rw [noteInit_timers],
              by rw [noteInit_nextTid], rfl⟩
        · exact Or.inl ⟨by rw [noteInit_pending], by rw [noteInit_timers],
            by rw [noteInit_nextTid], rfl⟩
      · exact Or.inl ⟨by rw [noteInit_pending], by rw [noteInit_timers],
          by rw [noteInit_nextTid], rfl⟩

/-! ### Preservation of the session invariant -/

theorem inv_of_eq_parts {s s' : S} (h : Inv s) (hp : s'.pending = s.pending)
    (ht : s'.timers = s.timers) (hn : s'.nextTid = s.nextTid) : Inv s' := by
  obtain ⟨hA, hB, hC, hD, hE⟩ := h
  refine ⟨by rw [hp]; exact hA, by rw [hp]; exact hB, ?_, by rw [ht]; exact hD, ?_⟩
  · intro p hq
    rw [hp] at hq
    rw [ht]
    exact hC p hq
  · intro t htm
    rw [ht] at htm
    rw [hn]
    exact hE t htm

theorem inv_of_failall {s s' : S} (h : Inv s) (hp : s'.pending = [])
    (ht : List.Sublist s'.timers s.timers) (hn : s.nextTid ≤ s'.nextTid) : Inv s' := by
  obtain ⟨_, _, _, hD, hE⟩ := h
  refine ⟨by simp [hp], by simp [hp], by simp [hp], ?_, ?_⟩
  · exact List.Nodup.sublist (List.Sublist.map Timer.tid ht) hD
  · intro t htm
    exact lt_of_lt_of_le (hE t (ht.subset htm)) hn

theorem inv_register (s : S) (i : JsonId) (meth : List Char) (h : Inv s) :
    Inv { s with
          pending := setK i ⟨meth, s.nextTid⟩ s.pending,
          timers := s.timers ++ [⟨s.nextTid, REQUEST_TIMEOUT, .reqTimeout i meth⟩],
          nextTid := s.nextTid + 1 } := by
  obtain ⟨hA, hB, hC, hD, hE⟩ := h
  have hfresh : ∀ p ∈ s.pending, p.2.tid ≠ s.nextTid := by
    intro p hp
    have hlt : p.2.tid < s.nextTid := hE _ (hC p hp)
    omega
  refine ⟨nodup_keys_setK _ _ hA, nodup_tids_setK _ _ hB hfresh, ?_, ?_, ?_⟩
  · intro p hp
    rcases mem_setK hp with hq | hq
    · subst hq
      exact List.mem_append_right _ (List.mem_singleton.mpr rfl)
    · exact List.mem_append_left _ (hC p hq)
  · rw [List.map_append]
    refine List.Nodup.append hD (by simp) ?_
    intro a ha hb
    rcases List.mem_map.mp ha with ⟨t, htm, rfl⟩
    simp only [List.map_cons, List.map_nil, List.mem_singleton] at hb
    have := hE t htm
    omega
  · intro t htm
    rcases List.mem_append.mp htm with htm | htm
    · exact lt_trans (hE t htm) (Nat.lt_succ_self _)
    · simp only [List.mem_singleton] at htm
      subst htm
      exact Nat.lt_succ_self _

theorem inv_resolve {s s' : S} (h : Inv s) {i : JsonId} {r : ReqInfo}
    (hget : getK i s.pending = some r)
    (hp : s'.pending = eraseK i s.pending)
    (ht : s'.timers = clearT r.tid s.timers)
    (hn : s'.nextTid = s.nextTid) : Inv s' := by
  obtain ⟨hA, hB, hC, hD, hE⟩ := h
  have hmem : (i, r) ∈ s.pending := getK_some_mem hget
  refine ⟨?_, ?_, ?_, ?_, ?_⟩
  · rw [hp]
    exact List.Nodup.sublist (List.Sublist.map Prod.fst (eraseK_sublist i s.pending)) hA
  · rw [hp]
    exact List.Nodup.sublist
      (List.Sublist.map (fun p => p.2.tid) (eraseK_sublist i s.pending)) hB
  · intro q hq
    rw [hp] at hq
    obtain ⟨hq1, hq2⟩ := mem_eraseK_ne hA hq
    rw [ht]
    refine mem_clearT.mpr ⟨hC q hq2, ?_⟩
    intro hc
    have heqr : q = (i, r) :=
      List.inj_on_of_nodup_map (f := fun p => p.2.tid) hB hq2 hmem hc
    exact hq1 (by rw [heqr])
  · rw [ht]
    exact List.Nodup.sublist (List.Sublist.map Timer.tid (clearT_sublist r.tid s.timers)) hD
  · intro t htm
    rw [ht] at htm
    rw [hn]
    exact hE t (mem_clearT.mp htm).1

theorem inv_wsMessage (s : S) (m : RpcMsg) (h : Inv s) : Inv (wsMessage s m).1 := by
  rcases wsMessage_cases s m with hc | ⟨i, meth, _, _, hc⟩
  · rw [hc]
    exact h
  · rw [hc]
    exact inv_register s i meth h

theorem pendL_setK_self (i : JsonId) (v : ReqInfo) (l : List (JsonId × ReqInfo)) :
    pendL i (setK i v l) = 1 := by
  unfold pendL
  rw [getK_setK_self]

theorem pendL_setK_ne {i k : JsonId} (v : ReqInfo) (h : i ≠ k) (l : List (JsonId × ReqInfo)) :
    pendL i (setK k v l) = pendL i l := by
  unfold pendL
  rw [getK_setK_ne v h]

theorem pendL_eraseK_self {i : JsonId} {l : List (JsonId × ReqInfo)}
    (hA : (l.map Prod.fst).Nodup) : pendL i (eraseK i l) = 0 := by
  unfold pendL
  rw [getK_eraseK_self hA]

theorem pendL_eraseK_ne {i k : JsonId} (h : i ≠ k) (l : List (JsonId × ReqInfo)) :
    pendL i (eraseK k l) = pendL i l := by
  unfold pendL
  rw [getK_eraseK_ne h]

theorem inv_processLine (parse : List Char → Option Parsed) (s : S) (line : List Char)
    (h : Inv s) : Inv (processLine parse s line).1 := by
  rcases processLine_cases parse s line with ⟨h1, h2, h3, _⟩ | ⟨i, r, k, hget, h1, h2, h3, _⟩
  · exact inv_of_eq_parts h h1 h2 h3
  · exact inv_resolve h hget h1 h2 h3

theorem inv_processLines (parse : List Char → Option Parsed) :
    ∀ (ls : List (List Char)) (s : S), Inv s → Inv (processLines parse s ls).1 := by
  intro ls
  induction ls with
  | nil => intro s h; exact h
  | cons l ls ih =>
    intro s h
    simp only [processLines]
    exact ih _ (inv_processLine parse s l h)

theorem inv_stdoutData (parse : List Char → Option Parsed) (s : S) (chunk : List Char)
    (h : Inv s) : Inv (stdoutData parse s chunk).1 := by
  unfold stdoutData
  split
  · exact h
  split
  · exact inv_of_failall h rfl (clearAllT_sublist _ _) (Nat.le_refl _)
  · exact inv_processLines parse _ _ (inv_of_eq_parts h rfl rfl rfl)

theorem inv_stderrData (s : S) (chunk : List Char) (h : Inv s) : Inv (stderrData s chunk).1 :=
  inv_of_eq_parts h rfl rfl rfl

theorem inv_procExit (s : S) (code : Int) (h : Inv s) : Inv (procExit s code).1 := by
  unfold procExit
  split
  · exact h
  · exact inv_of_failall h rfl (clearAllT_sublist _ _) (Nat.le_refl _)

theorem inv_wsClose (s : S) (h : Inv s) : Inv (wsClose s).1 := by
  obtain ⟨hA, hB, hC, hD, hE⟩ := h
  unfold wsClose
  split
  · split
    · -- SIGTERM branch: grace timer appended with a fresh handle
      refine ⟨by simp, by simp, by simp, ?_, ?_⟩
      · rw [List.map_append]
        refine List.Nodup.append
          (List.Nodup.sublist (List.Sublist.map Timer.tid (clearAllT_sublist _ _)) hD)
          (by simp) ?_
        intro a ha hb
        rcases List.mem_map.mp ha with ⟨t, htm, rfl⟩
        simp only [List.map_cons, List.map_nil, List.mem_singleton] at hb
        have := hE t ((clearAllT_sublist _ _).subset htm)
        omega
      · intro t htm
        rcases List.mem_append.mp htm with htm | htm
        · exact lt_trans (hE t ((clearAllT_sublist _ _).subset htm)) (Nat.lt_succ_self _)
        · simp only [List.mem_singleton] at htm
          subst htm
          exact Nat.lt_succ_self _
    · exact inv_of_failall ⟨hA, hB, hC, hD, hE⟩ rfl (clearAllT_sublist _ _) (Nat.le_refl _)
  · exact inv_of_eq_parts ⟨hA, hB, hC, hD, hE⟩ rfl rfl rfl

theorem inv_shutdownStep (s : S) (h : Inv s) : Inv (shutdownStep s).1 := by
  unfold shutdownStep
  split
  · exact h
  split
  · split
    · exact inv_of_failall h rfl (clearAllT_sublist _ _) (Nat.le_refl _)
    · exact inv_of_failall h rfl (clearAllT_sublist _ _) (Nat.le_refl _)
  · exact inv_of_eq_parts h rfl rfl rfl

theorem inv_fireTimer (s : S) (tid : Nat) (h : Inv s) : Inv (fireTimer s tid).1 := by
  obtain ⟨hA, hB, hC, hD, hE⟩ := h
  unfold fireTimer
  split
  · exact ⟨hA, hB, hC, hD, hE⟩
  next t hf =>
    have htm : t ∈ s.timers := List.mem_of_find?_eq_some hf
    have htid : t.tid = tid := by
      have := List.find?_some hf
      simpa using this
    have hCkeep : ∀ q ∈ s.pending, q.2.tid ≠ tid →
        (⟨q.2.tid, REQUEST_TIMEOUT, TKind.reqTimeout q.1 q.2.method⟩ : Timer) ∈
          clearT tid s.timers := by
      intro q hq hne
      exact mem_clearT.mpr ⟨hC q hq, hne⟩
    have hkind : ∀ q ∈ s.pending, q.2.tid = tid →
        t.kind = TKind.reqTimeout q.1 q.2.method := by
      intro q hq hqt
      have heqt : (⟨q.2.tid, REQUEST_TIMEOUT, TKind.reqTimeout q.1 q.2.method⟩ : Timer) = t :=
        List.inj_on_of_nodup_map (f := Timer.tid) hD (hC q hq) htm (by simp [hqt, htid])
      rw [← heqt]
    have hDk : ((clearT tid s.timers).map Timer.tid).Nodup :=
      List.Nodup.sublist (List.Sublist.map Timer.tid (clearT_sublist tid s.timers)) hD
    have hEk : ∀ u ∈ clearT tid s.timers, u.tid < s.nextTid :=
      fun u hu => hE u (mem_clearT.mp hu).1
    split
    next hk =>
      have hCq : ∀ q ∈ s.pending,
          (⟨q.2.tid, REQUEST_TIMEOUT, TKind.reqTimeout q.1 q.2.method⟩ : Timer) ∈
            clearT tid s.timers := by
        intro q hq
        refine hCkeep q hq ?_
        intro hqt
        have hx := hkind q hq hqt
        rw [hk] at hx
        cases hx
      exact ⟨hA, hB, hCq, hDk, hEk⟩
    next hk =>
      have hCq : ∀ q ∈ s.pending,
          (⟨q.2.tid, REQUEST_TIMEOUT, TKind.reqTimeout q.1 q.2.method⟩ : Timer) ∈
            clearT tid s.timers := by
        intro q hq
        refine hCkeep q hq ?_
        intro hqt
        have hx := hkind q hq hqt
        rw [hk] at hx
        cases hx
      split
      · exact ⟨hA, hB, hCq, hDk, hEk⟩
      · exact ⟨hA, hB, hCq, hDk, hEk⟩
    next i _m0 hk =>
      refine ⟨?_, ?_, ?_, hDk, hEk⟩
      · exact List.Nodup.sublist (List.Sublist.map Prod.fst (eraseK_sublist i s.pending)) hA
      · exact List.Nodup.sublist
          (List.Sublist.map (fun p => p.2.tid) (eraseK_sublist i s.pending)) hB
      · intro q hq
        obtain ⟨hq1, hq2⟩ := mem_eraseK_ne hA hq
        refine hCkeep q hq2 ?_
        intro hqt
        have hx := hkind q hq2 hqt
        rw [hk] at hx
        injection hx with hx1 hx2
        exact hq1 hx1.symm

/-! ### The per-step resolution bound: a step resolves an id at most as often
as it holds a pending entry for it plus the step's own registration of it. -/

theorem keysA_processLine (parse : List Char → Option Parsed) (s : S) (line : List Char)
    (hA : (s.pending.map Prod.fst).Nodup) :
    ((processLine parse s line).1.pending.map Prod.fst).Nodup := by
  rcases processLine_cases parse s line with ⟨h1, _, _, _⟩ | ⟨j, r, k, _, h1, _, _, _⟩
  · rw [h1]
    exact hA
  · rw [h1]
    exact List.Nodup.sublist (List.Sublist.map Prod.fst (eraseK_sublist j s.pending)) hA

theorem bound_processLine (parse : List Char → Option Parsed) (s : S) (line : List Char)
    (i : JsonId) (hA : (s.pending.map Prod.fst).Nodup) :
    resCount i (processLine parse s line).2.2 +
        pendL i (processLine parse s line).1.pending ≤
      pendL i s.pending := by
  rcases processLine_cases parse s line with ⟨h1, _, _, h4⟩ | ⟨j, r, k, hget, h1, _, _, h4⟩
  · rw [h1, h4, resCount_nil]
    omega
  · rw [h1, h4]
    by_cases hj : j = i
    · subst hj
      rw [pendL_eraseK_self hA, pendL_of_getK_some hget]
      simp [resCount]
    · rw [pendL_eraseK_ne (fun hc => hj hc.symm)]
      have hz : resCount i [(j, k)] = 0 := by simp [resCount, hj]
      rw [hz]
      omega

theorem bound_processLines (parse : List Char → Option Parsed) (i : JsonId) :
    ∀ (ls : List (List Char)) (s : S), (s.pending.map Prod.fst).Nodup →
      resCount i (processLines parse s ls).2.2 +
          pendL i (processLines parse s ls).1.pending ≤
        pendL i s.pending := by
  intro ls
  induction ls with
  | nil =>
    intro s _
    simp only [processLines, resCount_nil]
    omega
  | cons l ls ih =>
    intro s hA
    simp only [processLines]
    rw [resCount_append]
    have h1 := bound_processLine parse s l i hA
    have h2 := ih _ (keysA_processLine parse s l hA)
    omega

theorem step_bound (parse : List Char → Option Parsed) (s : S) (e : Ev) (i : JsonId)
    (hA : (s.pending.map Prod.fst).Nodup) :
    resCount i (step parse s e).2.2 + pendL i (step parse s e).1.pending ≤
      pendL i s.pending + regInd i e := by
  cases e with
  | clientRpc m =>
    simp only [step]
    rw [wsMessage_res, resCount_nil]
    rcases wsMessage_cases s m with hc | ⟨j, meth, hid, htr, hc⟩
    · rw [hc]
      omega
    · rw [hc]
      by_cases hj : j = i
      · subst hj
        have hreg : regInd j (Ev.clientRpc m) = 1 := by
          simp [regInd, evReqId, hid, htr]
        have hp : pendL j
            ({ s with
                pending := setK j ⟨meth, s.nextTid⟩ s.pending,
                timers := s.timers ++ [⟨s.nextTid, REQUEST_TIMEOUT, .reqTimeout j meth⟩],
                nextTid := s.nextTid + 1 } : S).pending = 1 :=
          pendL_setK_self j _ s.pending
        rw [hreg, hp]
        omega
      · have hp : pendL i
            ({ s with
                pending := setK j ⟨meth, s.nextTid⟩ s.pending,
                timers := s.timers ++ [⟨s.nextTid, REQUEST_TIMEOUT, .reqTimeout j meth⟩],
                nextTid := s.nextTid + 1 } : S).pending = pendL i s.pending :=
          pendL_setK_ne _ (fun hc => hj hc.symm) s.pending
        rw [hp]
        omega
  | stdoutChunk c =>
    have hreg : regInd i (Ev.stdoutChunk c) = 0 := rfl
    rw [hreg]
    simp only [step]
    unfold stdoutData
    split
    · simp [resCount_nil]
    split
    · have h1 : resCount i (s.pending.map (fun p => (p.1, RKind.breach))) =
          pendL i s.pending := resCount_map_const i _ hA
      have h0 : pendL i ([] : List (JsonId × ReqInfo)) = 0 := rfl
      simp [h1, h0]
    · exact le_trans (bound_processLines parse i _ _ hA) (Nat.le_add_right _ _)
  | stderrChunk c =>
    have hreg : regInd i (Ev.stderrChunk c) = 0 := rfl
    rw [hreg]
    simp only [step]
    unfold stderrData
    simp [resCount_nil]
  | fire tid =>
    have hreg : regInd i (Ev.fire tid) = 0 := rfl
    rw [hreg]
    simp only [step]
    unfold fireTimer
    split
    · simp [resCount_nil]
    · split
      · simp [resCount_nil]
      · split
        · simp [resCount_nil]
        · simp [resCount_nil]
      next j _m0 hk =>
        by_cases hj : j = i
        · subst hj
          rcases hg : getK j s.pending with _ | r
          · have h2 : pendL j (eraseK j s.pending) = 0 := pendL_eraseK_self hA
            have h3 : pendL j s.pending = 0 := pendL_of_getK_none hg
            simp [hg, resCount_nil, h2, h3]
          · have h2 : pendL j (eraseK j s.pending) = 0 := pendL_eraseK_self hA
            have h3 : pendL j s.pending = 1 := pendL_of_getK_some hg
            have h4 : resCount j [(j, RKind.timeout)] = 1 := by simp [resCount]
            simp [hg, h2, h3, h4]
        · rcases hg : getK j s.pending with _ | r
          · have h2 : pendL i (eraseK j s.pending) = pendL i s.pending :=
              pendL_eraseK_ne (fun hc => hj hc.symm) _
            simp [hg, resCount_nil, h2]
          · have h2 : pendL i (eraseK j s.pending) = pendL i s.pending :=
              pendL_eraseK_ne (fun hc => hj hc.symm) _
            have h4 : resCount i [(j, RKind.timeout)] = 0 := by simp [resCount, hj]
            simp [hg, h2, h4]
  | procEnd code =>
    have hreg : regInd i (Ev.procEnd code) = 0 := rfl
    rw [hreg]
    simp only [step]
    unfold procExit
    split
    · simp [resCount_nil]
    · have h1 : resCount i (s.pending.map (fun p => (p.1, RKind.procGone))) =
          pendL i s.pending := resCount_map_const i _ hA
      have h0 : pendL i ([] : List (JsonId × ReqInfo)) = 0 := rfl
      simp [h1, h0]
  | connClose =>
    have hreg : regInd i Ev.connClose = 0 := rfl
    rw [hreg]
    simp only [step]
    unfold wsClose
    split
    · have h1 : resCount i (s.pending.map (fun p => (p.1, RKind.connClosed))) =
          pendL i s.pending := resCount_map_const i _ hA
      have h0 : pendL i ([] : List (JsonId × ReqInfo)) = 0 := rfl
      split
      · simp [h1, h0]
      · simp [h1, h0]
    · simp [resCount_nil]
  | shutdownSig =>
    have hreg : regInd i Ev.shutdownSig = 0 := rfl
    rw [hreg]
    simp only [step]
    unfold shutdownStep
    split
    · simp [resCount_nil]
    split
    · have h1 : resCount i (s.pending.map (fun p => (p.1, RKind.shutdown))) =
          pendL i s.pending := resCount_map_const i _ hA
      have h0 : pendL i ([] : List (JsonId × ReqInfo)) = 0 := rfl
      split
      · simp [h1, h0]
      · simp [h1, h0]
    · simp [resCount_nil]

theorem inv_step (parse : List Char → Option Parsed) (s : S) (e : Ev) (h : Inv s) :
    Inv (step parse s e).1 := by
  cases e with
  | clientRpc m => exact inv_wsMessage s m h
  | stdoutChunk c => exact inv_stdoutData parse s c h
  | stderrChunk c => exact inv_stderrData s c h
  | fire tid => exact inv_fireTimer s tid h
  | procEnd code => exact inv_procExit s code h
  | connClose => exact inv_wsClose s h
  | shutdownSig => exact inv_shutdownStep s h

theorem run_inv (parse : List Char → Option Parsed) :
    ∀ (evs : List Ev) (s : S), Inv s → Inv (run parse s evs).1 := by
  intro evs
  induction evs with
  | nil => intro s h; exact h
  | cons e es ih =>
    intro s h
    simp only [run]
    exact ih _ (inv_step parse s e h)

theorem count_requestIds_cons (i : JsonId) (e : Ev) (es : List Ev) :
    (requestIds (e :: es)).count i = regInd i e + (requestIds es).count i := by
  rcases he : evReqId e with _ | j
  · simp [requestIds, List.filterMap_cons, he, regInd]
  · simp only [requestIds, List.filterMap_cons, he, regInd]
    rw [List.count_cons]
    by_cases hj : j = i
    · simp [hj, Nat.add_comm]
    · simp [hj]

theorem run_bound (parse : List Char → Option Parsed) (i : JsonId) :
    ∀ (evs : List Ev) (s : S), Inv s →
      resCount i (run parse s evs).2.2 + pendL i (run parse s evs).1.pending ≤
        pendL i s.pending + (requestIds evs).count i := by
  intro evs
  induction evs with
  | nil =>
    intro s _
    simp only [run, resCount_nil, requestIds, List.filterMap_nil, List.count_nil]
    omega
  | cons e es ih =>
    intro s h
    simp only [run]
    rw [resCount_append, count_requestIds_cons]
    have h1 := step_bound parse s e i h.1
    have h2 := ih _ (inv_step parse s e h)
    omega

theorem run_keysA (parse : List Char → Option Parsed) (evs : List Ev) (s : S) (h : Inv s) :
    ((run parse s evs).1.pending.map Prod.fst).Nodup :=
  (run_inv parse evs s h).1

theorem inv_initS : Inv initS := by
  unfold Inv initS
  refine ⟨by simp, by simp, by simp, by simp, ?_⟩
  intro t htm
  simp only [List.mem_singleton] at htm
  subst htm
  exact Nat.lt_succ_self 0

/-! ### The claims -/

/-- C1: At-most-one resolution.  In the post-connect session model, for every
trace of events whose client request ids are pairwise distinct (the JSON-RPC
producer assigns ids unique within a session), each Pending Request id is
resolved at most once, by exactly one of: a matching response on the child's
stdout, the per-frame size rejection, its timeout firing, or a failAll trigger
(cumulative size breach, process exit, connection close, shutdown).  Moreover
resolution never silently becomes impossible while the session is reachable:
for any id still pending after the trace, its timeout timer is still armed and
firing it resolves exactly that id. -/
theorem at_most_one_resolution (parse : List Char → Option Parsed)
    (evs : List Ev) (huniq : (requestIds evs).Nodup) :
    (∀ i : JsonId, resCount i (run parse initS evs).2.2 ≤ 1) ∧
    (∀ i r, getK i (run parse initS evs).1.pending = some r →
      (fireTimer (run parse initS evs).1 r.tid).2.2 = [(i, RKind.timeout)]) := by
  have hinv : Inv (run parse initS evs).1 := run_inv parse evs initS inv_initS
  constructor
  · intro i
    have hb := run_bound parse i evs initS inv_initS
    have hc : (requestIds evs).count i ≤ 1 := List.nodup_iff_count_le_one.mp huniq i
    have h0 : pendL i initS.pending = 0 := rfl
    omega
  · intro i r hget
    obtain ⟨hA, hB, hC, hD, hE⟩ := hinv
    have hmem := getK_some_mem hget
    have htmem := hC _ hmem
    have hf : (run parse initS evs).1.timers.find? (fun u => u.tid == r.tid) =
        some ⟨r.tid, REQUEST_TIMEOUT, TKind.reqTimeout i r.method⟩ := by
      simpa using find_tid_eq hD htmem
    unfold fireTimer
    rw [hf]
    simp [hget]

/-- Witness for C1: a one-request trace with a distinct id. -/
theorem at_most_one_resolution_witness :
    (requestIds evs1).Nodup ∧
      ((∀ i : JsonId, resCount i (run parseNone initS evs1).2.2 ≤ 1) ∧
        (∀ i r, getK i (run parseNone initS evs1).1.pending = some r →
          (fireTimer (run parseNone initS evs1).1 r.tid).2.2 = [(i, RKind.timeout)])) :=
  ⟨by decide, at_most_one_resolution parseNone evs1 (by decide)⟩

theorem filterMap_errId_map (ps : List (JsonId × ReqInfo)) (c : Int)
    (msg : List Char) :
    (ps.map (fun p => Out.sendErr p.1 c msg)).filterMap errId = ps.map Prod.fst := by
  induction ps with
  | nil => rfl
  | cons p ps ih => simp [List.filterMap_cons, List.map_cons, errId, ih]

/-- C2: cumulative size breach is lossless on ids.  When the cumulative check
breaches with N Pending Requests outstanding and the socket open, exactly N
synthesized error responses (code -32603) are emitted, one per pending id in
map order with no id twice; every pending timeout is cleared, the pending map
emptied, and the carry-over line buffer and cumulative counter reset. -/
theorem size_breach_lossless_on_ids (parse : List Char → Option Parsed) (s : S)
    (chunk : List Char) (hopen : s.wsOpen = true) (hsd : s.shuttingDown = false)
    (hA : (s.pending.map Prod.fst).Nodup)
    (hbr : s.totalSize + chunk.length > MAX_RESPONSE_SIZE) :
    (stdoutData parse s chunk).2.1 =
      s.pending.map
        (fun p => Out.sendErr p.1 (-32603) (breachMsg (s.totalSize + chunk.length))) ∧
    (stdoutData parse s chunk).2.1.length = s.pending.length ∧
    (stdoutData parse s chunk).2.1.filterMap errId = s.pending.map Prod.fst ∧
    ((stdoutData parse s chunk).2.1.filterMap errId).Nodup ∧
    (stdoutData parse s chunk).1.pending = [] ∧
    (stdoutData parse s chunk).1.lineBuf = [] ∧
    (stdoutData parse s chunk).1.totalSize = 0 ∧
    (∀ p ∈ s.pending, ∀ t ∈ (stdoutData parse s chunk).1.timers, t.tid ≠ p.2.tid) := by
  unfold stdoutData
  rw [if_neg (by simp [hsd, hopen]), if_pos hbr]
  have houts : (if s.wsOpen = true then
      s.pending.map
        (fun p => Out.sendErr p.1 (-32603) (breachMsg (s.totalSize + chunk.length)))
    else []) =
      s.pending.map
        (fun p => Out.sendErr p.1 (-32603) (breachMsg (s.totalSize + chunk.length))) :=
    if_pos hopen
  have hids : (s.pending.map
      (fun p => Out.sendErr p.1 (-32603)
        (breachMsg (s.totalSize + chunk.length)))).filterMap errId =
      s.pending.map Prod.fst := filterMap_errId_map s.pending _ _
  refine ⟨houts, ?_, ?_, ?_, rfl, rfl, rfl, ?_⟩
  · rw [houts, List.length_map]
  · rw [houts, hids]
  · rw [houts, hids]
    exact hA
  · intro p hp t htm
    exact (mem_clearAllT.mp htm).2 p hp

/-- Witness for C2 at a session with two pending requests, 49990 buffered
bytes, and a 20-byte chunk breaching the 50000-byte cumulative limit. -/
theorem size_breach_lossless_on_ids_witness :
    c2State.wsOpen = true ∧ c2State.shuttingDown = false ∧
      (c2State.pending.map Prod.fst).Nodup ∧
      c2State.totalSize + c2Chunk.length > MAX_RESPONSE_SIZE ∧
      (stdoutData parseNone c2State c2Chunk).2.1 =
        c2State.pending.map
          (fun p =>
            Out.sendErr p.1 (-32603) (breachMsg (c2State.totalSize + c2Chunk.length))) :=
  ⟨rfl, rfl, by decide, by decide,
    (size_breach_lossless_on_ids parseNone c2State c2Chunk rfl rfl (by decide)
      (by decide)).1⟩

/-- C3 (code bug): graceful-then-forceful termination is not implemented.  On
connection close with a live child the handler sends SIGTERM, which sets the
Node handle's killed flag; the 2-second grace timer's guard then reads the
killed flag (not process exit), so when it fires with the process still alive
no SIGKILL is sent. -/
theorem grace_kill_never_sent :
    (wsClose initS).2.1 = [Out.killSig sigTERM] ∧
    (wsClose initS).1.killed = true ∧
    (wsClose initS).1.exited = false ∧
    (wsClose initS).1.hasConnProc = true ∧
    (wsClose initS).1.timers.find? (fun t => t.tid == 1) =
      some ⟨1, 2000, TKind.graceKill⟩ ∧
    (fireTimer (wsClose initS).1 1).2.1 = [] := by decide

/-- C5 (code bug): the timeout error response carries the request id and code
-32603 and its message contains "timeout", but it names 15 seconds while the
timer that actually expired was armed with REQUEST_TIMEOUT = 10000 ms; the
message does not name the expired duration. -/
theorem timeout_error_names_wrong_duration :
    REQUEST_TIMEOUT = 10000 ∧
    (step parseNone initS (.clientRpc msg7)).1.timers.find? (fun t => t.tid == 1) =
      some ⟨1, REQUEST_TIMEOUT, TKind.reqTimeout (.num 7) meth7⟩ ∧
    (fireTimer (step parseNone initS (.clientRpc msg7)).1 1).2.1 =
      [Out.sendErr (.num 7) (-32603) timeoutMsg] ∧
    containsSub "timeout".toList timeoutMsg = true ∧
    containsSub "15 seconds".toList timeoutMsg = true ∧
    containsSub "10".toList timeoutMsg = false := by decide

/-! ### Single-line stdout scenarios (for the per-frame and pass-through
claims) -/

theorem splitNl_append_nl (l : List Char) (h : '\n' ∉ l) :
    splitNl (l ++ ['\n']) = [l, []] := by
  induction l with
  | nil => rfl
  | cons c rest ih =>
    have hc : ¬ c = '\n' := fun hc => h (by simp [hc])
    have hr : '\n' ∉ rest := fun hr => h (List.mem_cons_of_mem _ hr)
    rw [List.cons_append, splitNl_cons c (rest ++ ['\n']) rest [[]] hc (ih hr)]

theorem processLines_single (parse : List Char → Option Parsed) (s : S) (l : List Char) :
    processLines parse s [l] =
      ((processLine parse s l).1, (processLine parse s l).2.1,
        (processLine parse s l).2.2) := by
  simp [processLines]

theorem stdoutData_single (parse : List Char → Option Parsed) (s : S) (line : List Char)
    (hopen : s.wsOpen = true) (hsd : s.shuttingDown = false) (hbuf : s.lineBuf = [])
    (hnl : '\n' ∉ line) (htrim : (trim line).isEmpty = false)
    (hnobr : ¬ s.totalSize + (line ++ ['\n']).length > MAX_RESPONSE_SIZE) :
    stdoutData parse s (line ++ ['\n']) =
      processLines parse (bumpStdout s (line ++ ['\n'])) [line] := by
  unfold stdoutData
  rw [if_neg (by simp [hsd, hopen]), if_neg hnobr, hbuf, List.nil_append,
    splitNl_append_nl line hnl]
  have h1 : (emitParts [line, []]).1 = [line] := by
    rw [emitParts_cons line [[]] (by simp)]
    rfl
  have h2 : (emitParts [line, []]).2 = ([] : List Char) := by
    rw [emitParts_cons line [[]] (by simp)]
    rfl
  have hfil : [line].filter (fun l => !(trim l).isEmpty) = [line] := by
    simp [htrim]
  rw [h1, h2, hfil]
  rfl

theorem dropWhile_isWs_replicate (n : Nat) :
    (List.replicate n 'a').dropWhile isWs = List.replicate n 'a' := by
  have ha : isWs 'a' = false := by decide
  cases n with
  | zero => rfl
  | succ m => simp [List.replicate_succ, List.dropWhile_cons, ha]

theorem trim_bigLine : trim bigLine = bigLine := by
  unfold trim bigLine
  rw [dropWhile_isWs_replicate, List.reverse_replicate, dropWhile_isWs_replicate,
    List.reverse_replicate]

theorem bigLine_len : bigLine.length = 26000 := by
  unfold bigLine
  rw [List.length_replicate]

theorem bigLine_no_nl : '\n' ∉ bigLine := fun h =>
  absurd (List.eq_of_mem_replicate h) (by decide)

theorem bigLine_trim_nonempty : (trim bigLine).isEmpty = false := by
  rw [trim_bigLine]
  rfl

theorem parseBig_bigLine : parseBig bigLine = some ⟨some (.num 1), false⟩ := by
  rw [parseBig, bigLine_len]
  norm_num

theorem processLine_no_pending (parse : List Char → Option Parsed) (s : S)
    (line : List Char) (p : Parsed) (i : JsonId)
    (hp : parse line = some p) (hid : p.id = some i) (htr : i.truthy = true)
    (hbig : line.length > MAX_RESPONSE_SIZE / 2) (hg : getK i s.pending = none) :
    processLine parse s line = (s, [], []) := by
  unfold processLine
  simp only [hp, hid, htr, if_true, if_pos hbig, hg]

theorem processLine_frame_reject (parse : List Char → Option Parsed) (s : S)
    (line : List Char) (p : Parsed) (i : JsonId) (r : ReqInfo)
    (hp : parse line = some p) (hid : p.id = some i) (htr : i.truthy = true)
    (hbig : line.length > MAX_RESPONSE_SIZE / 2) (hg : getK i s.pending = some r) :
    processLine parse s line =
      ({ s with pending := eraseK i s.pending, timers := clearT r.tid s.timers },
        if s.wsOpen then [Out.sendErr i (-32603) (frameMsg line.length)] else [],
        [(i, .frameSize)]) := by
  unfold processLine
  simp only [hp, hid, htr, if_true, if_pos hbig, hg]

theorem processLine_falsy_forward (parse : List Char → Option Parsed) (s : S)
    (line : List Char) (p : Parsed)
    (hp : parse line = some p) (hfalsy : idTruthy p.id = false)
    (hbig : ¬ line.length > MAX_RESPONSE_SIZE / 2) :
    processLine parse s line = (noteInit p s, [Out.sendLine line], []) := by
  unfold processLine
  rcases hid : p.id with _ | i
  · simp only [hp, hid, if_neg hbig]
  · have htr : i.truthy = false := by
      rw [hid] at hfalsy
      simpa [idTruthy] using hfalsy
    simp only [hp, hid, if_neg hbig, htr, Bool.false_eq_true, if_false]

/-- C6 (refuted as stated): an oversized stdout line with a recoverable id
yields a client-visible error only when that id is currently pending.  With
an empty pending map, the 26001-byte chunk carrying an oversized line whose
parse recovers id 1 produces no output at all — no error response carrying
the id is delivered, contradicting the claim. -/
theorem frame_size_counterexample :
    bigLine.length > MAX_RESPONSE_SIZE / 2 ∧
    parseBig bigLine = some ⟨some (.num 1), false⟩ ∧
    (JsonId.num 1).truthy = true ∧
    initS.pending = [] ∧
    (stdoutData parseBig initS (bigLine ++ ['\n'])).2.1 = [] := by
  have hbig : bigLine.length > MAX_RESPONSE_SIZE / 2 := by
    rw [bigLine_len]
    norm_num [MAX_RESPONSE_SIZE]
  have hnobr : ¬ initS.totalSize + (bigLine ++ ['\n']).length > MAX_RESPONSE_SIZE := by
    rw [List.length_append, bigLine_len]
    norm_num [initS, MAX_RESPONSE_SIZE]
  refine ⟨hbig, parseBig_bigLine, by decide, rfl, ?_⟩
  rw [stdoutData_single parseBig initS bigLine rfl rfl rfl bigLine_no_nl
      bigLine_trim_nonempty hnobr, processLines_single,
    processLine_no_pending parseBig (bumpStdout initS (bigLine ++ ['\n'])) bigLine
      ⟨some (.num 1), false⟩ (.num 1) parseBig_bigLine rfl (by decide) hbig rfl]

/-- C6 (amended): when a child stdout line exceeds the per-frame threshold,
it is never forwarded; if its parse recovers a truthy id AND that id has a
Pending Request, a synthesized error (code -32603, message stating the size)
carrying the id is sent and the entry is canceled (removed, timer cleared);
if the recovered id has no pending entry the line is dropped with no client
message at all. -/
theorem frame_size_rejection (parse : List Char → Option Parsed) (s : S)
    (line : List Char) (p : Parsed) (i : JsonId)
    (hopen : s.wsOpen = true) (hsd : s.shuttingDown = false) (hbuf : s.lineBuf = [])
    (hnl : '\n' ∉ line) (htrim : (trim line).isEmpty = false)
    (hp : parse line = some p) (hid : p.id = some i) (htr : i.truthy = true)
    (hbig : line.length > MAX_RESPONSE_SIZE / 2)
    (hnobr : ¬ s.totalSize + (line ++ ['\n']).length > MAX_RESPONSE_SIZE) :
    (∀ l', Out.sendLine l' ∉ (stdoutData parse s (line ++ ['\n'])).2.1) ∧
    (∀ r, getK i s.pending = some r →
      (stdoutData parse s (line ++ ['\n'])).2.1 =
        [Out.sendErr i (-32603) (frameMsg line.length)] ∧
      (stdoutData parse s (line ++ ['\n'])).1.pending = eraseK i s.pending ∧
      (∀ t ∈ (stdoutData parse s (line ++ ['\n'])).1.timers, t.tid ≠ r.tid)) ∧
    (getK i s.pending = none →
      (stdoutData parse s (line ++ ['\n'])).2.1 = [] ∧
      (stdoutData parse s (line ++ ['\n'])).1.pending = s.pending) := by
  rw [stdoutData_single parse s line hopen hsd hbuf hnl htrim hnobr,
    processLines_single]
  refine ⟨?_, ?_, ?_⟩
  · intro l' hmem
    rcases hg : getK i s.pending with _ | r
    · have hg1 : getK i (bumpStdout s (line ++ ['\n'])).pending = none := hg
      rw [processLine_no_pending parse (bumpStdout s (line ++ ['\n'])) line p i
        hp hid htr hbig hg1] at hmem
      simp at hmem
    · have hg1 : getK i (bumpStdout s (line ++ ['\n'])).pending = some r := hg
      rw [processLine_frame_reject parse (bumpStdout s (line ++ ['\n'])) line p i r
        hp hid htr hbig hg1] at hmem
      rw [if_pos (show (bumpStdout s (line ++ ['\n'])).wsOpen = true from hopen)]
        at hmem
      simp at hmem
  · intro r hr
    have hg1 : getK i (bumpStdout s (line ++ ['\n'])).pending = some r := hr
    rw [processLine_frame_reject parse (bumpStdout s (line ++ ['\n'])) line p i r
      hp hid htr hbig hg1]
    refine ⟨?_, rfl, ?_⟩
    · rw [if_pos (show (bumpStdout s (line ++ ['\n'])).wsOpen = true from hopen)]
    · intro t htm
      exact (mem_clearT.mp htm).2
  · intro hr
    have hg1 : getK i (bumpStdout s (line ++ ['\n'])).pending = none := hr
    rw [processLine_no_pending parse (bumpStdout s (line ++ ['\n'])) line p i
      hp hid htr hbig hg1]
    exact ⟨rfl, rfl⟩

/-- Witness for C6's amended statement: a pending request with id 1 and the
oversized line whose parse recovers id 1. -/
theorem frame_size_rejection_witness :
    (∀ l', Out.sendLine l' ∉ (stdoutData parseBig pend1State (bigLine ++ ['\n'])).2.1) ∧
    (∀ r, getK (JsonId.num 1) pend1State.pending = some r →
      (stdoutData parseBig pend1State (bigLine ++ ['\n'])).2.1 =
        [Out.sendErr (JsonId.num 1) (-32603) (frameMsg bigLine.length)] ∧
      (stdoutData parseBig pend1State (bigLine ++ ['\n'])).1.pending =
        eraseK (JsonId.num 1) pend1State.pending ∧
      (∀ t ∈ (stdoutData parseBig pend1State (bigLine ++ ['\n'])).1.timers,
        t.tid ≠ r.tid)) ∧
    (getK (JsonId.num 1) pend1State.pending = none →
      (stdoutData parseBig pend1State (bigLine ++ ['\n'])).2.1 = [] ∧
      (stdoutData parseBig pend1State (bigLine ++ ['\n'])).1.pending =
        pend1State.pending) :=
  frame_size_rejection parseBig pend1State bigLine ⟨some (.num 1), false⟩ (.num 1)
    rfl rfl rfl bigLine_no_nl bigLine_trim_nonempty parseBig_bigLine rfl (by decide)
    (by rw [bigLine_len]; norm_num [MAX_RESPONSE_SIZE])
    (by rw [List.length_append, bigLine_len]
        norm_num [pend1State, initS, MAX_RESPONSE_SIZE])

/-! ### The outbound size guard (C7) and falsy-id pass-through (C10) -/

theorem bigSer_len : bigSer.length = 12500 := by
  unfold bigSer
  rw [List.length_replicate]

/-- C7 (refuted as stated): an oversized client request whose id is the falsy
number 0 is rejected with NO error response at all — the synthesized error
carrying the request's id that the claim promises is never sent. -/
theorem outbound_guard_falsy_counterexample :
    (msg0Big.ser ++ ['\n']).length > MAX_RESPONSE_SIZE / 4 ∧
    idTruthy msg0Big.id = false ∧
    wsMessage initS msg0Big = (initS, [], []) := by
  have hlen : (msg0Big.ser ++ ['\n']).length = 12501 := by
    show (bigSer ++ ['\n']).length = 12501
    rw [List.length_append, bigSer_len]
    rfl
  refine ⟨by rw [hlen]; norm_num [MAX_RESPONSE_SIZE], by decide, ?_⟩
  unfold wsMessage
  rw [if_neg (by decide), if_pos (by decide),
    if_pos (by rw [hlen]; norm_num [MAX_RESPONSE_SIZE])]
  rfl

/-- C7 (amended): a client-originated message whose serialized size (with the
trailing newline) exceeds a quarter of the cumulative threshold is rejected
atomically — nothing is written to the child's stdin, the session state is
unchanged (no Pending Request, no timer) — and the synthesized error response
carrying the request's id is sent exactly when the id is truthy and the socket
open; requests with falsy ids are dropped silently. -/
theorem outbound_size_guard (s : S) (m : RpcMsg)
    (hl : s.hasLocalProc = true) (hk : s.killed = false) (hsd : s.shuttingDown = false)
    (hbig : (m.ser ++ ['\n']).length > MAX_RESPONSE_SIZE / 4) :
    (wsMessage s m).1 = s ∧
    (∀ l, Out.stdinWrite l ∉ (wsMessage s m).2.1) ∧
    (∀ i, m.id = some i → i.truthy = true → s.wsOpen = true →
      (wsMessage s m).2.1 =
        [Out.sendErr i (-32603) (reqTooLargeMsg (m.ser ++ ['\n']).length)]) ∧
    (idTruthy m.id = false → (wsMessage s m).2.1 = []) := by
  unfold wsMessage
  rw [if_neg (by simp [hsd]), if_pos (by simp [hl, hk, hsd]), if_pos hbig]
  rcases hid : m.id with _ | i
  · simp only [hid]
    refine ⟨by trivial, ?_, ?_, by trivial⟩
    · intro l h
      simp at h
    · intro i2 h2 _ _
      cases h2
  · simp only [hid]
    by_cases hw : (i.truthy && s.wsOpen) = true
    · rw [if_pos hw]
      refine ⟨rfl, ?_, ?_, ?_⟩
      · intro l h
        simp at h
      · intro i2 h2 _ _
        injection h2 with h2
        subst h2
        rfl
      · intro hf
        rcases Bool.and_eq_true_iff.mp hw with ⟨ht, _⟩
        rw [show idTruthy (some i) = i.truthy from rfl, ht] at hf
        cases hf
    · rw [if_neg hw]
      refine ⟨rfl, ?_, ?_, fun _ => rfl⟩
      · intro l h
        simp at h
      · intro i2 h2 ht2 hw2
        injection h2 with h2
        subst h2
        exact absurd (by rw [ht2, hw2]; rfl) hw

/-- Witness for C7's amended statement: an oversized request with truthy id 7
in the freshly connected session. -/
theorem outbound_size_guard_witness :
    (wsMessage initS msg7Big).1 = initS ∧
    (∀ l, Out.stdinWrite l ∉ (wsMessage initS msg7Big).2.1) ∧
    (∀ i, msg7Big.id = some i → i.truthy = true → initS.wsOpen = true →
      (wsMessage initS msg7Big).2.1 =
        [Out.sendErr i (-32603) (reqTooLargeMsg (msg7Big.ser ++ ['\n']).length)]) ∧
    (idTruthy msg7Big.id = false → (wsMessage initS msg7Big).2.1 = []) :=
  outbound_size_guard initS msg7Big rfl rfl rfl
    (by show (bigSer ++ ['\n']).length > MAX_RESPONSE_SIZE / 4
        rw [List.length_append, bigSer_len]
        norm_num [MAX_RESPONSE_SIZE])

/-- C10 (refuted as stated): an oversized client message with a method and a
falsy (null) id is NOT written to the child's stdin — the outbound size guard
drops it first — contradicting the claim that every method-bearing falsy-id
message is written. -/
theorem falsy_id_not_written_counterexample :
    idTruthy msgNullBig.id = false ∧
    methTruthy msgNullBig.method = true ∧
    (msgNullBig.ser ++ ['\n']).length > MAX_RESPONSE_SIZE / 4 ∧
    wsMessage initS msgNullBig = (initS, [], []) := by
  have hlen : (msgNullBig.ser ++ ['\n']).length = 12501 := by
    show (bigSer ++ ['\n']).length = 12501
    rw [List.length_append, bigSer_len]
    rfl
  refine ⟨by decide, by decide, by rw [hlen]; norm_num [MAX_RESPONSE_SIZE], ?_⟩
  unfold wsMessage
  rw [if_neg (by decide), if_pos (by decide),
    if_pos (by rw [hlen]; norm_num [MAX_RESPONSE_SIZE])]
  rfl

/-- C10 (amended): a client message with a method and a falsy id (0, empty
string, or null) whose serialized size is within the outbound limit, arriving
while the child handle is usable, is written verbatim (plus newline) to the
child's stdin with no Pending Request registered and no timer started; and a
later normal-size child stdout line parsing with a falsy id is forwarded to
the client without resolving or canceling any pending entry. -/
theorem falsy_id_passthrough (s : S) (m : RpcMsg)
    (hl : s.hasLocalProc = true) (hk : s.killed = false) (hsd : s.shuttingDown = false)
    (hfalsy : idTruthy m.id = false)
    (hsize : ¬ (m.ser ++ ['\n']).length > MAX_RESPONSE_SIZE / 4) :
    wsMessage s m = (s, [Out.stdinWrite (m.ser ++ ['\n'])], []) ∧
    (∀ (parse : List Char → Option Parsed) (s2 : S) (line : List Char) (p : Parsed),
      s2.wsOpen = true → s2.shuttingDown = false → s2.lineBuf = [] →
      '\n' ∉ line → (trim line).isEmpty = false →
      parse line = some p → idTruthy p.id = false →
      ¬ line.length > MAX_RESPONSE_SIZE / 2 →
      ¬ s2.totalSize + (line ++ ['\n']).length > MAX_RESPONSE_SIZE →
      (stdoutData parse s2 (line ++ ['\n'])).2.1 = [Out.sendLine line] ∧
      (stdoutData parse s2 (line ++ ['\n'])).1.pending = s2.pending ∧
      (stdoutData parse s2 (line ++ ['\n'])).2.2 = []) := by
  constructor
  · unfold wsMessage
    rw [if_neg (by simp [hsd]), if_pos (by simp [hl, hk, hsd]), if_neg hsize]
    rcases hid : m.id with _ | i
    · rcases hmeth : m.method with _ | meth
      · simp only [hid, hmeth]
      · simp only [hid, hmeth]
    · have htr : i.truthy = false := by
        rw [hid] at hfalsy
        simpa [idTruthy] using hfalsy
      rcases hmeth : m.method with _ | meth
      · simp only [hid, hmeth]
      · simp only [hid, hmeth, htr, Bool.false_and, Bool.false_eq_true, if_false]
  · intro parse s2 line p hopen2 hsd2 hbuf2 hnl2 htrim2 hp2 hfalsy2 hbig2 hnobr2
    rw [stdoutData_single parse s2 line hopen2 hsd2 hbuf2 hnl2 htrim2 hnobr2,
      processLines_single,
      processLine_falsy_forward parse (bumpStdout s2 (line ++ ['\n'])) line p
        hp2 hfalsy2 hbig2]
    exact ⟨rfl, (noteInit_pending p (bumpStdout s2 (line ++ ['\n']))).trans rfl, rfl⟩

/-- Witness for C10's amended statement: a small null-id message written to
stdin, and a stdout line with a null id forwarded untouched. -/
theorem falsy_id_passthrough_witness :
    (wsMessage initS msgNull = (initS, [Out.stdinWrite (msgNull.ser ++ ['\n'])], []) ∧
      (∀ (parse : List Char → Option Parsed) (s2 : S) (line : List Char) (p : Parsed),
        s2.wsOpen = true → s2.shuttingDown = false → s2.lineBuf = [] →
        '\n' ∉ line → (trim line).isEmpty = false →
        parse line = some p → idTruthy p.id = false →
        ¬ line.length > MAX_RESPONSE_SIZE / 2 →
        ¬ s2.totalSize + (line ++ ['\n']).length > MAX_RESPONSE_SIZE →
        (stdoutData parse s2 (line ++ ['\n'])).2.1 = [Out.sendLine line] ∧
        (stdoutData parse s2 (line ++ ['\n'])).1.pending = s2.pending ∧
        (stdoutData parse s2 (line ++ ['\n'])).2.2 = [])) ∧
      (stdoutData parseNotif initS (notifLine ++ ['\n'])).2.1 =
        [Out.sendLine notifLine] :=
  ⟨falsy_id_passthrough initS msgNull rfl rfl rfl (by decide)
      (by decide),
    ((falsy_id_passthrough initS msgNull rfl rfl rfl (by decide)
        (by decide)).2 parseNotif initS notifLine
      ⟨some .null, false⟩ rfl rfl rfl (by decide) (by decide) (by simp [parseNotif])
      (by decide) (by decide) (by decide)).1⟩

/-! ### Stderr surfacing (C8) -/

theorem isPre_refl (l : List Char) : isPre l l = true := by
  induction l with
  | nil => rfl
  | cons c cs ih => simp [isPre, ih]

theorem containsSub_self_append (pat pre : List Char) :
    containsSub pat (pre ++ pat) = true := by
  induction pre with
  | nil =>
    cases pat with
    | nil => rfl
    | cons c cs => simp [containsSub, isPre_refl]
  | cons c cs ih => simp [containsSub, ih]

/-- C8 (refuted as stated): in the size-limited revision, a child stderr chunk
produces NO message to the client while the socket is open — the handler only
logs and buffers the text. -/
theorem stderr_not_forwarded_counterexample :
    initS.wsOpen = true ∧ (stderrData initS "boom".toList).2.1 = [] :=
  ⟨rfl, rfl⟩

/-- C8 (amended): the original bridge revision forwards each stderr chunk to
the open client connection as an error-shaped JSON-RPC message (code -32000)
containing the stderr text, leaving its state untouched; the size-limited
revision sends nothing at stderr time and only appends the trimmed text to
the session's stderr buffer.  In both revisions stderr output changes no
lifecycle state: the process stays alive, nothing is killed, no pending
request is resolved, and the session is not terminated. -/
theorem stderr_surfaced_nonfatal (s : S) (c : List Char) (sv : V1S)
    (hv : sv.wsOpen = true) :
    (stderrHandlerV1 sv c).2 =
      [V1Out.sendErrorShaped (-32000) (mcpServerErrorHead ++ trim c)] ∧
    containsSub (trim c) (mcpServerErrorHead ++ trim c) = true ∧
    (stderrHandlerV1 sv c).1 = sv ∧
    (stderrData s c).2.1 = [] ∧
    (stderrData s c).2.2 = [] ∧
    (stderrData s c).1 = { s with stderrBuf := s.stderrBuf ++ trim c ++ ['\n'] } := by
  refine ⟨?_, containsSub_self_append _ _, rfl, rfl, rfl, rfl⟩
  simp [stderrHandlerV1, hv]

/-- Witness for C8's amended statement at a concrete stderr chunk. -/
theorem stderr_surfaced_nonfatal_witness :
    (stderrHandlerV1 ⟨true, true⟩ "boom".toList).2 =
      [V1Out.sendErrorShaped (-32000)
        (mcpServerErrorHead ++ trim "boom".toList)] ∧
    containsSub (trim "boom".toList)
      (mcpServerErrorHead ++ trim "boom".toList) = true ∧
    (stderrHandlerV1 ⟨true, true⟩ "boom".toList).1 = ⟨true, true⟩ ∧
    (stderrData initS "boom".toList).2.1 = [] ∧
    (stderrData initS "boom".toList).2.2 = [] ∧
    (stderrData initS "boom".toList).1 =
      { initS with stderrBuf := initS.stderrBuf ++ trim "boom".toList ++ ['\n'] } :=
  stderr_surfaced_nonfatal initS "boom".toList ⟨true, true⟩ rfl

/-! ### One live child per session (C9) -/

/-- C9 (refuted as stated): a second connect message while a child is alive
spawns a second child and never signals the first, so the session owns two
live children simultaneously. -/
theorem second_connect_two_children :
    liveCount (connectHandler cInit cMsg).1 = 1 ∧
    liveCount (connectHandler (connectHandler cInit cMsg).1 cMsg).1 = 2 ∧
    (connectHandler (connectHandler cInit cMsg).1 cMsg).2 = [COut.spawnProc] := by
  decide

/-- C9 (amended): the connect branch holds at most one child HANDLE, but it
never kills a previously spawned child: its output contains no kill, every
previously spawned child keeps its state, and a successful connect while
children are alive strictly increases the live-children count — so a session
can own more than one live child. -/
theorem connect_never_kills (s : CS) (m : ConnectMsg) :
    (∀ o ∈ (connectHandler s m).2, ∀ idx sig, o ≠ COut.killChild idx sig) ∧
    ((connectHandler s m).1.procs = s.procs ∨
      (connectHandler s m).1.procs = s.procs ++ [⟨true⟩]) ∧
    (m.validCmd = true → m.wdExists = true →
      liveCount (connectHandler s m).1 = liveCount s + 1) := by
  unfold connectHandler
  split
  next h =>
    refine ⟨?_, Or.inl rfl, ?_⟩
    · intro o ho
      simp at ho
    · intro hv _
      rw [hv] at h
      simp at h
  split
  next h =>
    refine ⟨?_, Or.inl rfl, ?_⟩
    · intro o ho idx sig
      simp only [List.mem_singleton] at ho
      subst ho
      simp
    · intro _ hw
      rw [hw] at h
      simp at h
  · refine ⟨?_, Or.inr rfl, ?_⟩
    · intro o ho idx sig
      simp only [List.mem_singleton] at ho
      subst ho
      simp
    · intro _ _
      simp [liveCount, List.filter_append]

/-- Witness for C9's amended statement at a session with one live child. -/
theorem connect_never_kills_witness :
    (∀ o ∈ (connectHandler (connectHandler cInit cMsg).1 cMsg).2,
      ∀ idx sig, o ≠ COut.killChild idx sig) ∧
    ((connectHandler (connectHandler cInit cMsg).1 cMsg).1.procs =
        (connectHandler cInit cMsg).1.procs ∨
      (connectHandler (connectHandler cInit cMsg).1 cMsg).1.procs =
        (connectHandler cInit cMsg).1.procs ++ [⟨true⟩]) ∧
    (cMsg.validCmd = true → cMsg.wdExists = true →
      liveCount (connectHandler (connectHandler cInit cMsg).1 cMsg).1 =
        liveCount (connectHandler cInit cMsg).1 + 1) :=
  connect_never_kills (connectHandler cInit cMsg).1 cMsg

end McpBridge
